import Mathlib

/-!
# QuanConvolutionLayer: weight quantization

A shallow embedding of `src/caffe/layers/quan_conv_layer.cpp`.

Number model.  `Dtype` (the C++ `float`/`double` template parameter) is embedded in exact
arithmetic: a finite value is a rational number (every finite binary floating-point number
is one), and the three IEEE special values `+inf`, `-inf` and `NaN` are kept, because the code
produces them on purpose (`std::numeric_limits<Dtype>::infinity()`) and by `log2(0)`.
A zero is the positive zero.

Two places where the format of `Dtype` decides the stored value are modelled: the clipping
bounds `pow(2.0, bit_width_) - 1.0` and the like are computed in `double` and stored in a
`Dtype`, so they are rounded to its significand (`to_Dtype`), and `pow(2.0, n)` stored in a
`Dtype` is `+inf` from `2 ^ emax` on and `0` below `2 ^ emin` (`pow2`).  The other operations
(the quotient passed to `log2`, `weights * scaling_factor`, the final quotient) are taken
exact, and bit widths from 128 on, where `pow(2.0, bit_width_)` itself can overflow, are
outside the model.

The value of a call `log2(x)` is in general irrational.  It is kept symbolically as
`LogVal.log2Of x` (the real number `log2 x`, for a rational `x > 0`); the code only ever
compares two such values and rounds one to an integer, and both are computed exactly from `x`
(`Int.log`, `Int.clog`).  The theorems `floor_log2_real`, `ceil_log2_real` and `round_log2_real`
tie these to the real logarithm.  The C library returns the logarithm rounded to a `double`,
which can reach the next integer when `x` is within rounding distance below a power of two;
that rounding is not part of the model.

C++ `int` is embedded as a 32-bit two's-complement integer (`wrap32`).
-/

set_option linter.unusedVariables false

namespace caffe

/-! ## Dtype: exact values with the IEEE special values -/

/-- The values of a `Dtype` variable. -/
inductive Dtype where
  | fin (q : ℚ)
  | posInf
  | negInf
  | nan
  deriving DecidableEq

namespace Dtype

/-- C++ `a < b`; a comparison with NaN is false. -/
def lt : Dtype → Dtype → Bool
  | fin a, fin b => decide (a < b)
  | fin _, posInf => true
  | negInf, fin _ => true
  | negInf, posInf => true
  | _, _ => false

/-- C++ `a <= b`; a comparison with NaN is false. -/
def le : Dtype → Dtype → Bool
  | fin a, fin b => decide (a ≤ b)
  | fin _, posInf => true
  | negInf, fin _ => true
  | negInf, posInf => true
  | posInf, posInf => true
  | negInf, negInf => true
  | _, _ => false

/-- C++ `a * b`. -/
def mul : Dtype → Dtype → Dtype
  | fin a, fin b => fin (a * b)
  | fin a, posInf => if 0 < a then posInf else if a < 0 then negInf else nan
  | fin a, negInf => if 0 < a then negInf else if a < 0 then posInf else nan
  | posInf, fin b => if 0 < b then posInf else if b < 0 then negInf else nan
  | negInf, fin b => if 0 < b then negInf else if b < 0 then posInf else nan
  | posInf, posInf => posInf
  | posInf, negInf => negInf
  | negInf, posInf => negInf
  | negInf, negInf => posInf
  | _, _ => nan

/-- C++ `a / b`; a zero divisor is the positive zero. -/
def div : Dtype → Dtype → Dtype
  | fin a, fin b =>
    if b = 0 then (if 0 < a then posInf else if a < 0 then negInf else nan) else fin (a / b)
  | fin _, posInf => fin 0
  | fin _, negInf => fin 0
  | posInf, fin b => if 0 ≤ b then posInf else negInf
  | negInf, fin b => if 0 ≤ b then negInf else posInf
  | _, _ => nan

/-- C `floor`. -/
def floor : Dtype → Dtype
  | fin a => fin (⌊a⌋ : ℤ)
  | x => x

/-- C `ceil`. -/
def ceil : Dtype → Dtype
  | fin a => fin (⌈a⌉ : ℤ)
  | x => x

/-- C `round`: to the nearest integer, halfway cases away from zero. -/
def round : Dtype → Dtype
  | fin a => fin ((if 0 ≤ a then ⌊a + 1 / 2⌋ else ⌈a - 1 / 2⌉ : ℤ) : ℚ)
  | x => x

/-- C `trunc`: toward zero. -/
def trunc : Dtype → Dtype
  | fin a => fin ((if 0 ≤ a then ⌊a⌋ else ⌈a⌉ : ℤ) : ℚ)
  | x => x

end Dtype

/-! ## The floating-point format of Dtype -/

/-- The two instantiations of the template parameter `Dtype` (`INSTANTIATE_CLASS`). -/
inductive DtypeKind where
  | float
  | double
  deriving DecidableEq

/-- Number of significand bits of the format. -/
def DtypeKind.prec : DtypeKind → ℕ
  | DtypeKind.float => 24
  | DtypeKind.double => 53

/-- The least exponent `n` for which `2 ^ n` overflows to `+inf` in the format. -/
def DtypeKind.emax : DtypeKind → ℤ
  | DtypeKind.float => 128
  | DtypeKind.double => 1024

/-- The exponent of the least positive value `2 ^ emin` of the format (a subnormal). -/
def DtypeKind.emin : DtypeKind → ℤ
  | DtypeKind.float => -149
  | DtypeKind.double => -1074

/-- Round to the nearest integer, halfway cases to the even one. -/
def round_half_even (q : ℚ) : ℤ :=
  if q - ⌊q⌋ < 1 / 2 then ⌊q⌋
  else if 1 / 2 < q - ⌊q⌋ then ⌊q⌋ + 1
  else if ⌊q⌋ % 2 = 0 then ⌊q⌋ else ⌊q⌋ + 1

/-- Round a finite value to `p` significand bits, to nearest, halfway cases to even (the
default IEEE rounding; the exponent range is not limited here). -/
def rne (p : ℕ) (x : ℚ) : ℚ :=
  if x = 0 then 0
  else (round_half_even (x / 2 ^ (Int.log 2 |x| - (p : ℤ) + 1)) : ℚ)
    * 2 ^ (Int.log 2 |x| - (p : ℤ) + 1)

/-- The value stored in a `Dtype` variable when it is assigned the result `x` of a `double`
computation: `x` rounded to `double` and then converted to the format of `Dtype`. -/
def to_Dtype (k : DtypeKind) (x : ℚ) : ℚ := rne k.prec (rne 53 x)

/-- C++ `std::max(a, b)`, that is `(a < b) ? b : a`. -/
def std_max (a b : Dtype) : Dtype := if a.lt b then b else a

/-- C++ `std::min(a, b)`, that is `(b < a) ? b : a`. -/
def std_min (a b : Dtype) : Dtype := if b.lt a then b else a

/-! ## Values of `log2` and integer exponents -/

/-- The value of a call `log2(x)`: the real number `log2 x` kept by its argument `x > 0`,
or a special value. -/
inductive LogVal where
  | log2Of (x : ℚ)
  | posInf
  | negInf
  | nan
  deriving DecidableEq

/-- C `log2(x)` at a finite `x`: `-inf` at zero, NaN below zero. -/
def log2 (x : ℚ) : LogVal :=
  if 0 < x then LogVal.log2Of x else if x = 0 then LogVal.negInf else LogVal.nan

/-- A `Dtype` that holds an integer (the result of `floor`, `round`, `ceil` of a `log2`),
or a special value. -/
inductive Exponent where
  | int (n : ℤ)
  | posInf
  | negInf
  | nan
  deriving DecidableEq

namespace LogVal

/-- C++ `a < b` on two `log2` values; `log2` is strictly increasing. -/
def lt : LogVal → LogVal → Bool
  | log2Of x, log2Of y => decide (x < y)
  | log2Of _, posInf => true
  | negInf, log2Of _ => true
  | negInf, posInf => true
  | _, _ => false

/-- C++ `std::min(a, b)`, that is `(b < a) ? b : a`. -/
def min (a b : LogVal) : LogVal := if b.lt a then b else a

/-- C `floor(log2 x)`: the greatest `n` with `2 ^ n <= x`. -/
def floor : LogVal → Exponent
  | log2Of x => Exponent.int (Int.log 2 x)
  | posInf => Exponent.posInf
  | negInf => Exponent.negInf
  | nan => Exponent.nan

/-- C `ceil(log2 x)`: the least `n` with `x <= 2 ^ n`. -/
def ceil : LogVal → Exponent
  | log2Of x => Exponent.int (Int.clog 2 x)
  | posInf => Exponent.posInf
  | negInf => Exponent.negInf
  | nan => Exponent.nan

/-- C `round(log2 x)`.  For a rational `x` the value `log2 x` is never halfway between two
integers, so `round(log2 x) = floor(log2 x + 1/2) = floor(log2 (2 x^2) / 2)`. -/
def round : LogVal → Exponent
  | log2Of x => Exponent.int (Int.log 2 (2 * x * x) / 2)
  | posInf => Exponent.posInf
  | negInf => Exponent.negInf
  | nan => Exponent.nan

end LogVal

/-- C `pow(2.0, e)` at an integer or special `e`, stored in a `Dtype` of format `k`: a power
of two inside the range of the format is exact, from `2 ^ emax` on the stored value is
`+inf`, below `2 ^ emin` it is `0`. -/
def pow2 (k : DtypeKind) : Exponent → Dtype
  | Exponent.int n =>
    if k.emax ≤ n then Dtype.posInf else if n < k.emin then Dtype.fin 0
    else Dtype.fin ((2 : ℚ) ^ n)
  | Exponent.posInf => Dtype.posInf
  | Exponent.negInf => Dtype.fin 0
  | Exponent.nan => Dtype.nan

/-! ## The layer -/

/-- The enum `QuanInnerProductParameter_RoundMethod`; `UNKNOWN` stands for any value that
matches no `case` label. -/
inductive RoundMethod where
  | ROUND
  | FLOOR
  | CEIL
  | TRUNC
  | UNKNOWN
  deriving DecidableEq

/-- The enum `QuanInnerProductParameter_RoundStrategy`; `UNKNOWN` stands for any value that
matches no `case` label. -/
inductive RoundStrategy where
  | CONSERVATIVE
  | NEUTRAL
  | AGGRESSIVE
  | UNKNOWN
  deriving DecidableEq

/-- The message `layer_param_.quan_convolution_param()`. -/
structure QuanConvolutionParameter where
  bit_width : ℤ
  round_method : RoundMethod
  round_strategy : RoundStrategy
  is_runtime : Bool
  range_low : ℚ
  range_high : ℚ

/-- The members of `QuanConvolutionLayer<Dtype>` that the quantization code reads and writes.
`dtype` is the template parameter, `blobs_0` is the stored weight blob `blobs_[0]`, `blobs_1`
the stored bias `blobs_[1]`. -/
structure QuanConvolutionLayer where
  dtype : DtypeKind
  layer_param_ : QuanConvolutionParameter
  bit_width_ : ℤ
  round_method_ : RoundMethod
  round_strategy_ : RoundStrategy
  is_runtime_ : Bool
  range_low_ : ℚ
  range_high_ : ℚ
  blobs_0 : List ℚ
  blobs_1 : List ℚ

/-! ## Weight_Quantization -/

/-- Lines 21-34 of `Weight_Quantization`: the clipping interval `(min_value, max_value)`,
chosen between the unsigned and the two's-complement encoding; each bound is the `double`
expression of the source stored in a `Dtype`. -/
def clip_interval (L : QuanConvolutionLayer) : ℚ × ℚ :=
  if 0 ≤ L.range_low_ then
    (0, to_Dtype L.dtype (2 ^ L.bit_width_ - 1))
  else if L.range_high_ ≤ 0 then
    (to_Dtype L.dtype (-(2 ^ L.bit_width_) + 1), 0)
  else
    (to_Dtype L.dtype (-(2 ^ (L.bit_width_ - 1))), to_Dtype L.dtype (2 ^ (L.bit_width_ - 1) - 1))

/-- Line 39: `neg_scaling_factor`. -/
def neg_scaling_factor (L : QuanConvolutionLayer) : LogVal :=
  if L.range_low_ < 0 then log2 ((clip_interval L).1 / L.range_low_) else LogVal.posInf

/-- Line 41: `pos_scaling_factor`. -/
def pos_scaling_factor (L : QuanConvolutionLayer) : LogVal :=
  if 0 < L.range_high_ then log2 ((clip_interval L).2 / L.range_high_) else LogVal.posInf

/-- Lines 44-57: the `switch (round_strategy_)` that sets `scaling_factor`; the `default`
label is `LOG(FATAL)`. -/
def scaling_factor (L : QuanConvolutionLayer) : Except String Dtype :=
  match L.round_strategy_ with
  | RoundStrategy.CONSERVATIVE =>
    Except.ok (pow2 L.dtype (LogVal.floor (LogVal.min (neg_scaling_factor L) (pos_scaling_factor L))))
  | RoundStrategy.NEUTRAL =>
    Except.ok (pow2 L.dtype (LogVal.round (LogVal.min (neg_scaling_factor L) (pos_scaling_factor L))))
  | RoundStrategy.AGGRESSIVE =>
    Except.ok (pow2 L.dtype (LogVal.ceil (LogVal.min (neg_scaling_factor L) (pos_scaling_factor L))))
  | RoundStrategy.UNKNOWN => Except.error "Unknown round strategy."

/-- Lines 61-77: the `switch (round_method_)` that sets `weight_rounded`; the `default`
label is `LOG(FATAL)`. -/
def round_by_method (m : RoundMethod) (weights scaling_factor : Dtype) : Except String Dtype :=
  match m with
  | RoundMethod.ROUND => Except.ok (Dtype.round (weights.mul scaling_factor))
  | RoundMethod.FLOOR => Except.ok (Dtype.floor (weights.mul scaling_factor))
  | RoundMethod.CEIL => Except.ok (Dtype.ceil (weights.mul scaling_factor))
  | RoundMethod.TRUNC => Except.ok (Dtype.trunc (weights.mul scaling_factor))
  | RoundMethod.UNKNOWN => Except.error "Unknown round method."

/-- Lines 79-82: `weight_rounded` is set to `floor(weights * scaling_factor)`, clipped to
`[min_value, max_value]` and divided by `scaling_factor`. -/
def clip_rescale (weights scaling_factor : Dtype) (min_value max_value : ℚ) : Dtype :=
  let weight_rounded := Dtype.floor (weights.mul scaling_factor)
  (std_min (std_max weight_rounded (Dtype.fin min_value)) (Dtype.fin max_value)).div
    scaling_factor

/-- `QuanConvolutionLayer::Weight_Quantization(Dtype& weights)`: the value written back to
`weights`, or the message of the `LOG(FATAL)` that ends the process. -/
def Weight_Quantization (L : QuanConvolutionLayer) (weights : Dtype) : Except String Dtype :=
  let min_value := (clip_interval L).1
  let max_value := (clip_interval L).2
  match scaling_factor L with
  | Except.error msg => Except.error msg
  | Except.ok scaling_factor =>
    match round_by_method L.round_method_ weights scaling_factor with
    | Except.error msg => Except.error msg
    | Except.ok weight_rounded =>
      -- line 79 overwrites `weight_rounded`
      Except.ok (clip_rescale weights scaling_factor min_value max_value)

/-! ## compute_output_shape -/

/-- A C++ `int` result: 32-bit two's complement. -/
def wrap32 (x : ℤ) : ℤ := (x + 2 ^ 31) % 2 ^ 32 - 2 ^ 31

/-- The members of the base convolution layer that `compute_output_shape` reads: the arrays
behind `kernel_shape_`, `stride_`, `pad_`, `dilation_`, and `input_shape(i)`. -/
structure ConvGeometry where
  num_spatial_axes_ : ℕ
  kernel_shape_data : ℕ → ℤ
  stride_data : ℕ → ℤ
  pad_data : ℕ → ℤ
  dilation_data : ℕ → ℤ
  input_shape : ℕ → ℤ

/-- Lines 96-99: the body of the loop of `compute_output_shape` for one spatial axis;
`/` on `int` truncates toward zero. -/
def output_dim (input_dim kernel stride pad dilation : ℤ) : ℤ :=
  let kernel_extent := wrap32 (wrap32 (dilation * wrap32 (kernel - 1)) + 1)
  wrap32 (Int.tdiv (wrap32 (wrap32 (input_dim + wrap32 (2 * pad)) - kernel_extent)) stride + 1)

/-- `QuanConvolutionLayer::compute_output_shape()`: the new `output_shape_`. -/
def compute_output_shape (G : ConvGeometry) : List ℤ :=
  (List.range G.num_spatial_axes_).map fun i =>
    output_dim (G.input_shape (i + 1)) (G.kernel_shape_data i) (G.stride_data i)
      (G.pad_data i) (G.dilation_data i)

/-! ## get_quantization_paramter, Forward_cpu, Backward_cpu -/

/-- `QuanConvolutionLayer::get_quantization_paramter()`. -/
def get_quantization_paramter (L : QuanConvolutionLayer) : QuanConvolutionLayer :=
  let p := L.layer_param_
  { L with
    bit_width_ := p.bit_width
    round_method_ := p.round_method
    round_strategy_ := p.round_strategy
    is_runtime_ := if p.range_low = p.range_high then true else p.is_runtime
    range_low_ := p.range_low
    range_high_ := p.range_high }

/-- C++ `std::sort(first, last)` on finite values: the ascending rearrangement. -/
def std_sort (buf : List ℚ) : List ℚ := buf.insertionSort (· ≤ ·)

/-- Lines 147-150: `Weight_Quantization(*(Q_weight+i))` for `i = 0, 1, ...` in turn; the
first `LOG(FATAL)` ends the loop. -/
def quantize_buffer (L : QuanConvolutionLayer) : List ℚ → Except String (List Dtype)
  | [] => Except.ok []
  | w :: rest =>
    match Weight_Quantization L (Dtype.fin w) with
    | Except.error msg => Except.error msg
    | Except.ok q =>
      match quantize_buffer L rest with
      | Except.error msg => Except.error msg
      | Except.ok qs => Except.ok (q :: qs)

/-- Lines 130-142 of `Forward_cpu`: the scratch buffer `tmp_weight` after the copy and the
optional sort, and the layer with the calibrated range.  `sort_weight` is the same pointer as
`tmp_weight`, so the sort rearranges the scratch buffer itself.  With `is_runtime_` set and
no weight, `sort_weight[qcount_-1]` reads outside the buffer: no result. -/
def calibrate (L : QuanConvolutionLayer) : Except String (QuanConvolutionLayer × List ℚ) :=
  let tmp_weight := L.blobs_0
  if L.is_runtime_ then
    let tmp_weight := std_sort tmp_weight
    match tmp_weight.getLast?, tmp_weight.head? with
    | some hi, some lo =>
      Except.ok ({ L with range_high_ := hi, range_low_ := lo }, tmp_weight)
    | _, _ => Except.error "read outside an empty weight buffer"
  else
    Except.ok (L, tmp_weight)

/-- `QuanConvolutionLayer::Forward_cpu`, up to the calls of the convolution kernels: the
layer afterwards and the buffer `weight` that is passed to `forward_cpu_gemm`. -/
def Forward_cpu (L : QuanConvolutionLayer) : Except String (QuanConvolutionLayer × List Dtype) :=
  match calibrate L with
  | Except.error msg => Except.error msg
  | Except.ok (L1, tmp_weight) =>
    match quantize_buffer L1 tmp_weight with
    | Except.error msg => Except.error msg
    | Except.ok weight => Except.ok (L1, weight)

/-- Line 179 of `Backward_cpu`: the buffer `weight` it reads, `blobs_[0]->cpu_data()`. -/
def Backward_cpu_weight (L : QuanConvolutionLayer) : List ℚ := L.blobs_0

/-! ## The quantizer as the specification words it -/

/-- The rounding rule that the specification attaches to a round method: ROUND is
round-half-away-from-zero, FLOOR the floor, CEIL the ceiling, TRUNC truncation toward zero. -/
def spec_round (m : RoundMethod) (x : ℚ) : Option ℤ :=
  match m with
  | RoundMethod.ROUND => some (if 0 ≤ x then ⌊x + 1 / 2⌋ else ⌈x - 1 / 2⌉)
  | RoundMethod.FLOOR => some ⌊x⌋
  | RoundMethod.CEIL => some ⌈x⌉
  | RoundMethod.TRUNC => some (if 0 ≤ x then ⌊x⌋ else ⌈x⌉)
  | RoundMethod.UNKNOWN => none

/-- The specification's `quantize_one` (its section 4.3, steps 1-4), in exact arithmetic:
scale, round by the configured method, clamp to `[min_value, max_value]`, divide by the
scaling factor. -/
def spec_quantize_one (m : RoundMethod) (weight scaling_factor min_value max_value : ℚ) :
    Option ℚ :=
  (spec_round m (weight * scaling_factor)).map fun rounded =>
    min (max (rounded : ℚ) min_value) max_value / scaling_factor

/-! ## Example configurations -/

/-- The configuration `bit_width = 8`, range `(-2, 2)`, NEUTRAL, FLOOR, static range, with a
few stored weights. -/
def example_layer : QuanConvolutionLayer where
  dtype := DtypeKind.double
  layer_param_ := ⟨8, RoundMethod.FLOOR, RoundStrategy.NEUTRAL, false, -2, 2⟩
  bit_width_ := 8
  round_method_ := RoundMethod.FLOOR
  round_strategy_ := RoundStrategy.NEUTRAL
  is_runtime_ := false
  range_low_ := -2
  range_high_ := 2
  blobs_0 := [3 / 2, -2]
  blobs_1 := [1 / 2]

/-- The same configuration with runtime calibration; the stored weights are not in ascending
order. -/
def unsorted_runtime_layer : QuanConvolutionLayer :=
  { example_layer with is_runtime_ := true }

/-- Runtime calibration with the stored weights `[-3, 1, 5/2]`. -/
def runtime_layer : QuanConvolutionLayer :=
  { example_layer with is_runtime_ := true, blobs_0 := [-3, 1, 5 / 2] }

/-- The layer `unsorted_runtime_layer` after the calibration of `Forward_cpu`: the range is
`(-2, 3/2)`. -/
def unsorted_runtime_calibrated : QuanConvolutionLayer :=
  { unsorted_runtime_layer with range_high_ := 3 / 2, range_low_ := -2 }

/-- The layer `runtime_layer` after the calibration of `Forward_cpu`: the range is
`(-3, 5/2)`. -/
def runtime_calibrated : QuanConvolutionLayer :=
  { runtime_layer with range_high_ := 5 / 2, range_low_ := -3 }

/-- The configuration `bit_width = 8`, CONSERVATIVE, with the static range `(0, 0)`. -/
def zero_range_layer : QuanConvolutionLayer :=
  { example_layer with
    round_strategy_ := RoundStrategy.CONSERVATIVE, range_low_ := 0, range_high_ := 0 }

/-- The configuration `example_layer` with `bit_width = 1`: a range of both signs and the
clipping interval `(-1, 0)`. -/
def one_bit_layer : QuanConvolutionLayer :=
  { example_layer with bit_width_ := 1 }

/-- The configuration `example_layer` with the round method CEIL. -/
def ceil_layer : QuanConvolutionLayer :=
  { example_layer with round_method_ := RoundMethod.CEIL }

/-- One spatial axis with `input_dim = 8`, `kernel = 3`, `stride = 1`, `pad = 1`,
`dilation = 1`. -/
def same_padding_geometry : ConvGeometry where
  num_spatial_axes_ := 1
  kernel_shape_data := fun _ => 3
  stride_data := fun _ => 1
  pad_data := fun _ => 1
  dilation_data := fun _ => 1
  input_shape := fun _ => 8

/-- One spatial axis with `input_dim = 2`, `kernel = 3`, `stride = 2`, `pad = 0`,
`dilation = 1`: the input is shorter than the kernel. -/
def small_input_geometry : ConvGeometry where
  num_spatial_axes_ := 1
  kernel_shape_data := fun _ => 3
  stride_data := fun _ => 2
  pad_data := fun _ => 0
  dilation_data := fun _ => 1
  input_shape := fun _ => 2

/-- A layer whose configuration has `range_low = range_high = 1/2` and `is_runtime` false;
the members are those of `example_layer` before `get_quantization_paramter` runs. -/
def degenerate_range_layer : QuanConvolutionLayer :=
  { example_layer with
    layer_param_ := ⟨8, RoundMethod.FLOOR, RoundStrategy.NEUTRAL, false, 1 / 2, 1 / 2⟩ }

/-- The configuration `example_layer` with the CONSERVATIVE strategy. -/
def conservative_layer : QuanConvolutionLayer :=
  { example_layer with round_strategy_ := RoundStrategy.CONSERVATIVE }

/-- A `float` layer with `bit_width = 32` and the static range `(0, 1)`. -/
def float32_layer : QuanConvolutionLayer :=
  { example_layer with
    dtype := DtypeKind.float, bit_width_ := 32, range_low_ := 0, range_high_ := 1 }

/-- A `double` layer with `bit_width = 54` and the static range `(0, 1)`. -/
def double54_layer : QuanConvolutionLayer :=
  { example_layer with bit_width_ := 54, range_low_ := 0, range_high_ := 1 }

/-- A `double` layer with `bit_width = 8` and the static range `(0, 1.5 * 2^-1016)`. -/
def tiny_range_layer : QuanConvolutionLayer :=
  { example_layer with range_low_ := 0, range_high_ := 3 / 2 * 2 ^ (-1016 : ℤ) }

theorem floor_logb_two (x : ℚ) (hx : 0 < x) : ⌊Real.logb 2 (x : ℝ)⌋ = Int.log 2 x := by
  have hxr : (0 : ℝ) < (x : ℝ) := by exact_mod_cast hx
  rw [Int.floor_eq_iff]
  constructor
  · rw [Real.le_logb_iff_rpow_le (by norm_num) hxr, Real.rpow_intCast]
    have h2 : (2 : ℚ) ^ Int.log 2 x ≤ x := by
      have := Int.zpow_log_le_self (b := 2) (by norm_num) hx
      exact_mod_cast this
    have h3 := (Rat.cast_le (K := ℝ)).2 h2
    simpa using h3
  · rw [Real.logb_lt_iff_lt_rpow (by norm_num) hxr]
    have h1 : x < (2 : ℚ) ^ (Int.log 2 x + 1) := by
      have := Int.lt_zpow_succ_log_self (b := 2) (by norm_num) x
      exact_mod_cast this
    have h2 : (x : ℝ) < (2 : ℝ) ^ (Int.log 2 x + 1) := by
      have h3 := (Rat.cast_lt (K := ℝ)).2 h1
      simpa using h3
    rw [← Real.rpow_intCast] at h2
    push_cast at h2
    exact h2

theorem ceil_logb_two (x : ℚ) (hx : 0 < x) : ⌈Real.logb 2 (x : ℝ)⌉ = Int.clog 2 x := by
  have hxr : (0 : ℝ) < (x : ℝ) := by exact_mod_cast hx
  rw [Int.ceil_eq_iff]
  constructor
  · rw [Real.lt_logb_iff_rpow_lt (by norm_num) hxr]
    have h1 : (2 : ℚ) ^ (Int.clog 2 x - 1) < x := by
      have := Int.zpow_pred_clog_lt_self (b := 2) (by norm_num) hx
      exact_mod_cast this
    have h2 : (2 : ℝ) ^ (Int.clog 2 x - 1) < (x : ℝ) := by
      have h3 := (Rat.cast_lt (K := ℝ)).2 h1
      simpa using h3
    rw [← Real.rpow_intCast] at h2
    push_cast at h2
    exact h2
  · rw [Real.logb_le_iff_le_rpow (by norm_num) hxr, Real.rpow_intCast]
    have h1 : x ≤ (2 : ℚ) ^ Int.clog 2 x := by
      have := Int.self_le_zpow_clog (b := 2) (by norm_num) x
      exact_mod_cast this
    have h3 := (Rat.cast_le (K := ℝ)).2 h1
    simpa using h3

/-- No rational number squares to 2. -/
theorem rat_sq_ne_two (q : ℚ) : q * q ≠ 2 := by
  intro h
  have h1 : ((|q| : ℚ) : ℝ) * ((|q| : ℚ) : ℝ) = 2 := by
    have : |q| * |q| = 2 := by rw [abs_mul_abs_self]; exact h
    exact_mod_cast this
  have h2 : Real.sqrt 2 = ((|q| : ℚ) : ℝ) := by
    rw [← h1]
    exact Real.sqrt_mul_self (by exact_mod_cast abs_nonneg q)
  exact irrational_sqrt_two.ne_rat _ h2

/-- The value `log2 x` of a rational `x` is never halfway between two integers. -/
theorem log2_not_half (x : ℚ) (hx : 0 < x) (k : ℤ) : Real.logb 2 (x : ℝ) + 1 / 2 ≠ k := by
  intro h
  have hxr : (0 : ℝ) < (x : ℝ) := by exact_mod_cast hx
  have h1 : Real.logb 2 ((2 : ℝ) * x * x) = ((2 * k : ℤ) : ℝ) := by
    rw [Real.logb_mul (by positivity) hxr.ne', Real.logb_mul (by norm_num) hxr.ne',
      Real.logb_self_eq_one (by norm_num)]
    push_cast
    linarith
  have h2 : (2 : ℝ) * x * x = (2 : ℝ) ^ (2 * k) := by
    have := Real.rpow_logb (b := 2) (by norm_num) (by norm_num) (by positivity : (0 : ℝ) < 2 * x * x)
    rw [h1, Real.rpow_intCast] at this
    exact this.symm
  have h3 : (2 : ℚ) * x * x = (2 : ℚ) ^ (2 * k) := by
    apply Rat.cast_injective (α := ℝ)
    push_cast
    exact h2
  have h4 : ((2 : ℚ) ^ k / x) * ((2 : ℚ) ^ k / x) = 2 := by
    have e : (2 : ℚ) ^ (2 * k) = (2 : ℚ) ^ k * (2 : ℚ) ^ k := by
      rw [two_mul, zpow_add₀ (by norm_num)]
    rw [e] at h3
    field_simp
    linarith
  exact rat_sq_ne_two _ h4

theorem round_logb_two (x : ℚ) (hx : 0 < x) :
    (if 0 ≤ Real.logb 2 (x : ℝ) then ⌊Real.logb 2 (x : ℝ) + 1 / 2⌋
      else ⌈Real.logb 2 (x : ℝ) - 1 / 2⌉) = Int.log 2 (2 * x * x) / 2 := by
  have hxr : (0 : ℝ) < (x : ℝ) := by exact_mod_cast hx
  have hm := floor_logb_two (2 * x * x) (by positivity)
  have h1 : Real.logb 2 (((2 * x * x : ℚ)) : ℝ) = 1 + 2 * Real.logb 2 (x : ℝ) := by
    push_cast
    rw [Real.logb_mul (by positivity) hxr.ne', Real.logb_mul (by norm_num) hxr.ne',
      Real.logb_self_eq_one (by norm_num)]
    ring
  rw [h1, Int.floor_eq_iff] at hm
  obtain ⟨hm1, hm2⟩ := hm
  generalize Int.log 2 (2 * x * x) = m at hm1 hm2 ⊢
  generalize hy : Real.logb 2 (x : ℝ) = y at hm1 hm2 ⊢
  have hr1 : ((m / 2 : ℤ) : ℝ) ≤ y + 1 / 2 := by
    have : (2 : ℝ) * ((m / 2 : ℤ) : ℝ) ≤ m := by
      have : 2 * (m / 2) ≤ m := by omega
      exact_mod_cast this
    linarith
  have hr2 : y + 1 / 2 < ((m / 2 : ℤ) : ℝ) + 1 := by
    have : (m : ℝ) + 1 ≤ 2 * ((m / 2 : ℤ) : ℝ) + 2 := by
      have : m + 1 ≤ 2 * (m / 2) + 2 := by omega
      exact_mod_cast this
    linarith
  have hfl : ⌊y + 1 / 2⌋ = m / 2 := by
    rw [Int.floor_eq_iff]
    exact ⟨hr1, hr2⟩
  split_ifs with h0
  · exact hfl
  · rw [Int.ceil_eq_iff]
    have hne : y + 1 / 2 ≠ ((m / 2 : ℤ) : ℝ) := by
      rw [← hy]
      exact log2_not_half x hx _
    constructor
    · have := lt_of_le_of_ne hr1 (Ne.symm hne)
      linarith
    · linarith

/-- The model of `floor(log2(x))` is the floor of the real logarithm. -/
theorem floor_log2_real (x : ℚ) (hx : 0 < x) :
    LogVal.floor (log2 x) = Exponent.int ⌊Real.logb 2 (x : ℝ)⌋ := by
  simp [log2, hx, LogVal.floor, floor_logb_two x hx]

/-- The model of `ceil(log2(x))` is the ceiling of the real logarithm. -/
theorem ceil_log2_real (x : ℚ) (hx : 0 < x) :
    LogVal.ceil (log2 x) = Exponent.int ⌈Real.logb 2 (x : ℝ)⌉ := by
  simp [log2, hx, LogVal.ceil, ceil_logb_two x hx]

/-- The model of `round(log2(x))` is the real logarithm rounded to the nearest integer,
halfway cases away from zero. -/
theorem round_log2_real (x : ℚ) (hx : 0 < x) :
    LogVal.round (log2 x) = Exponent.int
      (if 0 ≤ Real.logb 2 (x : ℝ) then ⌊Real.logb 2 (x : ℝ) + 1 / 2⌋
        else ⌈Real.logb 2 (x : ℝ) - 1 / 2⌉) := by
  rw [round_logb_two x hx]
  simp [log2, hx, LogVal.round]

/-- The model of `log2(x) < log2(y)` is the comparison of the real logarithms. -/
theorem lt_log2_real (x y : ℚ) (hx : 0 < x) (hy : 0 < y) :
    LogVal.lt (log2 x) (log2 y) = true ↔ Real.logb 2 (x : ℝ) < Real.logb 2 (y : ℝ) := by
  have hxr : (0 : ℝ) < (x : ℝ) := by exact_mod_cast hx
  have hyr : (0 : ℝ) < (y : ℝ) := by exact_mod_cast hy
  rw [Real.logb_lt_logb_iff (by norm_num) hxr hyr]
  simp [log2, hx, hy, LogVal.lt]

/-! ## Auxiliary facts -/

open Dtype

theorem std_max_fin (a b : ℚ) : std_max (fin a) (fin b) = fin (max a b) := by
  unfold std_max Dtype.lt
  by_cases h : a < b
  · simp [h, max_eq_right h.le]
  · simp [h, max_eq_left (not_lt.mp h)]

theorem std_min_fin (a b : ℚ) : std_min (fin a) (fin b) = fin (min a b) := by
  unfold std_min Dtype.lt
  by_cases h : b < a
  · simp [h, min_eq_right h.le]
  · simp [h, min_eq_left (not_lt.mp h)]

/-- With a finite non-zero scaling factor every step of lines 79-82 stays finite. -/
theorem clip_rescale_fin (w s m M : ℚ) (hs : s ≠ 0) :
    clip_rescale (fin w) (fin s) m M = fin (min (max (⌊w * s⌋ : ℚ) m) M / s) := by
  simp [clip_rescale, Dtype.mul, Dtype.floor, std_max_fin, std_min_fin, Dtype.div, hs]

theorem clip_rescale_int (w s : ℚ) (m M : ℤ) (hs : s ≠ 0) :
    clip_rescale (fin w) (fin s) m M = fin (((min (max ⌊w * s⌋ m) M : ℤ) : ℚ) / s) := by
  rw [clip_rescale_fin w s m M hs]
  push_cast
  rfl

theorem clamp_int_mem (z m M : ℤ) (h : m ≤ M) :
    m ≤ min (max z m) M ∧ min (max z m) M ≤ M :=
  ⟨le_min (le_max_right _ _) h, min_le_right _ _⟩

/-- For a recognised method the value written back is that of lines 79-82. -/
theorem Weight_Quantization_eq (L : QuanConvolutionLayer) (w sf : Dtype)
    (hsf : scaling_factor L = Except.ok sf) (hm : L.round_method_ ≠ RoundMethod.UNKNOWN) :
    Weight_Quantization L w
      = Except.ok (clip_rescale w sf (clip_interval L).1 (clip_interval L).2) := by
  unfold Weight_Quantization
  rw [hsf]
  cases hr : L.round_method_ <;> simp_all [round_by_method]

/-- The same, with the scheme named. -/
theorem Weight_Quantization_scheme (L : QuanConvolutionLayer) (w sf : Dtype) (m M : ℚ)
    (hsf : scaling_factor L = Except.ok sf) (hci : clip_interval L = (m, M))
    (hm : L.round_method_ ≠ RoundMethod.UNKNOWN) :
    Weight_Quantization L w = Except.ok (clip_rescale w sf m M) := by
  rw [Weight_Quantization_eq L w sf hsf hm, hci]

/-- `Int.log 2 x` is the `n` with `2 ^ n ≤ x < 2 ^ (n + 1)`. -/
theorem int_log_two_eq (x : ℚ) (n : ℤ) (h1 : (2 : ℚ) ^ n ≤ x) (h2 : x < (2 : ℚ) ^ (n + 1)) :
    Int.log 2 x = n := by
  have hx : 0 < x := lt_of_lt_of_le (by positivity) h1
  apply le_antisymm
  · have := (Int.lt_zpow_iff_log_lt (b := 2) (by norm_num) (x := n + 1) hx).1 (by exact_mod_cast h2)
    omega
  · exact (Int.zpow_le_iff_le_log (b := 2) (by norm_num) hx).1 (by exact_mod_cast h1)

/-- `Int.clog 2 x` is the `n` with `2 ^ (n - 1) < x ≤ 2 ^ n`. -/
theorem int_clog_two_eq (x : ℚ) (n : ℤ) (h1 : (2 : ℚ) ^ (n - 1) < x) (h2 : x ≤ (2 : ℚ) ^ n) :
    Int.clog 2 x = n := by
  have hx : 0 < x := lt_trans (by positivity) h1
  apply le_antisymm
  · exact (Int.le_zpow_iff_clog_le (b := 2) (by norm_num) hx).1 (by exact_mod_cast h2)
  · have := (Int.zpow_lt_iff_lt_clog (b := 2) (by norm_num) (x := n - 1) hx).1
      (by exact_mod_cast h1)
    omega

theorem round_half_even_intCast (n : ℤ) : round_half_even (n : ℚ) = n := by
  simp [round_half_even]

theorem round_half_even_nonneg (q : ℚ) (hq : 0 ≤ q) : 0 ≤ round_half_even q := by
  have h : 0 ≤ ⌊q⌋ := Int.floor_nonneg.mpr hq
  unfold round_half_even
  split_ifs <;> omega

theorem round_half_even_nonpos (q : ℚ) (hq : q ≤ 0) : round_half_even q ≤ 0 := by
  have h : ⌊q⌋ ≤ 0 := by
    have := Int.floor_le q
    have h2 : (⌊q⌋ : ℚ) ≤ 0 := le_trans this hq
    exact_mod_cast h2
  unfold round_half_even
  split_ifs with h1 h2 h3
  · exact h
  · have h4 : (⌊q⌋ : ℚ) < 0 := by linarith
    have h5 : ⌊q⌋ < 0 := by exact_mod_cast h4
    omega
  · exact h
  · have h4 : (⌊q⌋ : ℚ) < 0 := by linarith
    have h5 : ⌊q⌋ < 0 := by exact_mod_cast h4
    omega

theorem rne_nonneg (p : ℕ) (x : ℚ) (hx : 0 ≤ x) : 0 ≤ rne p x := by
  unfold rne
  split_ifs with h0
  · exact le_refl _
  · have hq : 0 ≤ round_half_even (x / 2 ^ (Int.log 2 |x| - (p : ℤ) + 1)) :=
      round_half_even_nonneg _ (div_nonneg hx (by positivity))
    have hq2 : (0 : ℚ) ≤ (round_half_even (x / 2 ^ (Int.log 2 |x| - (p : ℤ) + 1)) : ℚ) := by
      exact_mod_cast hq
    exact mul_nonneg hq2 (by positivity)

theorem rne_nonpos (p : ℕ) (x : ℚ) (hx : x ≤ 0) : rne p x ≤ 0 := by
  unfold rne
  split_ifs with h0
  · exact le_refl _
  · have hq : round_half_even (x / 2 ^ (Int.log 2 |x| - (p : ℤ) + 1)) ≤ 0 :=
      round_half_even_nonpos _ (div_nonpos_of_nonpos_of_nonneg hx (by positivity))
    have hq2 : (round_half_even (x / 2 ^ (Int.log 2 |x| - (p : ℤ) + 1)) : ℚ) ≤ 0 := by
      exact_mod_cast hq
    exact mul_nonpos_of_nonpos_of_nonneg hq2 (by positivity)

/-- An integer of fewer than `p` bits is kept by the rounding to `p` significand bits. -/
theorem rne_intCast (p : ℕ) (n : ℤ) (h : |n| < 2 ^ p) : rne p (n : ℚ) = n := by
  by_cases h0 : n = 0
  · simp [rne, h0]
  have hq0 : (n : ℚ) ≠ 0 := by exact_mod_cast h0
  have habs : (0 : ℚ) < |(n : ℚ)| := abs_pos.mpr hq0
  have h1 : (1 : ℚ) ≤ |(n : ℚ)| := by
    have : (1 : ℤ) ≤ |n| := Int.one_le_abs h0
    exact_mod_cast this
  have hlt : |(n : ℚ)| < (2 : ℚ) ^ (p : ℤ) := by
    have : ((|n| : ℤ) : ℚ) < ((2 ^ p : ℤ) : ℚ) := by exact_mod_cast h
    simpa using this
  have he0 : 0 ≤ Int.log 2 |(n : ℚ)| :=
    (Int.zpow_le_iff_le_log (b := 2) (by norm_num) habs).1 (by simpa using h1)
  have hep : Int.log 2 |(n : ℚ)| < (p : ℤ) :=
    (Int.lt_zpow_iff_log_lt (b := 2) (by norm_num) habs).1 (by exact_mod_cast hlt)
  obtain ⟨k, hk⟩ : ∃ k : ℕ, Int.log 2 |(n : ℚ)| - (p : ℤ) + 1 = -(k : ℤ) :=
    ⟨((p : ℤ) - 1 - Int.log 2 |(n : ℚ)|).toNat, by omega⟩
  unfold rne
  rw [if_neg hq0, hk, zpow_neg, zpow_natCast, div_inv_eq_mul]
  have e : (n : ℚ) * 2 ^ k = ((n * 2 ^ k : ℤ) : ℚ) := by push_cast; ring
  rw [e, round_half_even_intCast]
  push_cast
  field_simp

theorem to_Dtype_intCast (k : DtypeKind) (n : ℤ) (h : |n| < 2 ^ k.prec) :
    to_Dtype k (n : ℚ) = n := by
  have h53 : |n| < 2 ^ 53 := by
    refine lt_of_lt_of_le h ?_
    cases k <;> norm_num [DtypeKind.prec]
  rw [to_Dtype, rne_intCast 53 n h53, rne_intCast k.prec n h]

theorem to_Dtype_nonneg (k : DtypeKind) (x : ℚ) (hx : 0 ≤ x) : 0 ≤ to_Dtype k x :=
  rne_nonneg _ _ (rne_nonneg _ _ hx)

theorem to_Dtype_nonpos (k : DtypeKind) (x : ℚ) (hx : x ≤ 0) : to_Dtype k x ≤ 0 :=
  rne_nonpos _ _ (rne_nonpos _ _ hx)

/-- Stored in a `float`, `2^32 - 1` becomes `2^32`. -/
theorem to_Dtype_float_32 : to_Dtype DtypeKind.float (2 ^ (32 : ℤ) - 1) = 2 ^ 32 := by
  have h1 : rne 53 ((2 : ℚ) ^ (32 : ℤ) - 1) = 4294967295 := by
    have := rne_intCast 53 4294967295 (by norm_num)
    norm_num at this ⊢
    exact this
  have hl : Int.log 2 |(4294967295 : ℚ)| = 31 := by
    rw [abs_of_pos (by norm_num)]
    exact int_log_two_eq _ 31 (by norm_num) (by norm_num)
  rw [to_Dtype, h1]
  unfold rne
  rw [if_neg (by norm_num), hl]
  have hq : round_half_even ((4294967295 : ℚ) / 2 ^ ((31 : ℤ) - ((DtypeKind.float.prec : ℕ) : ℤ) + 1))
      = 16777216 := by
    have hf : ⌊(4294967295 : ℚ) / 256⌋ = 16777215 := by norm_num [Int.floor_eq_iff]
    norm_num [DtypeKind.prec, round_half_even, hf]
  rw [hq]
  norm_num [DtypeKind.prec]

/-- While the bit width does not exceed the significand of `Dtype`, the stored clipping
bounds are the exact values of the source expressions. -/
theorem clip_interval_exact (L : QuanConvolutionLayer) (hb : 1 ≤ L.bit_width_)
    (hp : L.bit_width_ ≤ (L.dtype.prec : ℤ)) :
    clip_interval L =
      (if 0 ≤ L.range_low_ then (0, 2 ^ L.bit_width_ - 1)
        else if L.range_high_ ≤ 0 then (-(2 ^ L.bit_width_) + 1, 0)
        else (-(2 ^ (L.bit_width_ - 1)), 2 ^ (L.bit_width_ - 1) - 1)) := by
  obtain ⟨n, hn⟩ : ∃ n : ℕ, L.bit_width_ = ((n + 1 : ℕ) : ℤ) :=
    ⟨(L.bit_width_ - 1).toNat, by omega⟩
  have hnp : n + 1 ≤ L.dtype.prec := by omega
  have p1 : (2 : ℤ) ^ n < 2 ^ L.dtype.prec :=
    pow_lt_pow_right₀ (by norm_num) (by omega)
  have p2 : (2 : ℤ) ^ (n + 1) ≤ 2 ^ L.dtype.prec :=
    pow_le_pow_right₀ (by norm_num) hnp
  have q1 : (1 : ℤ) ≤ 2 ^ n := one_le_pow₀ (by norm_num)
  have q2 : (1 : ℤ) ≤ 2 ^ (n + 1) := one_le_pow₀ (by norm_num)
  have e1 : (2 : ℚ) ^ L.bit_width_ = (((2 : ℤ) ^ (n + 1) : ℤ) : ℚ) := by
    rw [hn, zpow_natCast]
    push_cast
    rfl
  have e2 : (2 : ℚ) ^ (L.bit_width_ - 1) = (((2 : ℤ) ^ n : ℤ) : ℚ) := by
    rw [show L.bit_width_ - 1 = ((n : ℕ) : ℤ) by omega, zpow_natCast]
    push_cast
    rfl
  have a1 : to_Dtype L.dtype ((2 : ℚ) ^ L.bit_width_ - 1) = (2 : ℚ) ^ L.bit_width_ - 1 := by
    have := to_Dtype_intCast L.dtype ((2 : ℤ) ^ (n + 1) - 1)
      (by rw [abs_of_nonneg (by omega)]; omega)
    rw [e1]
    push_cast at this ⊢
    exact this
  have a2 : to_Dtype L.dtype (-((2 : ℚ) ^ L.bit_width_) + 1)
      = -((2 : ℚ) ^ L.bit_width_) + 1 := by
    have := to_Dtype_intCast L.dtype (-((2 : ℤ) ^ (n + 1)) + 1)
      (by rw [abs_of_nonpos (by omega)]; omega)
    rw [e1]
    push_cast at this ⊢
    exact this
  have a3 : to_Dtype L.dtype (-((2 : ℚ) ^ (L.bit_width_ - 1)))
      = -((2 : ℚ) ^ (L.bit_width_ - 1)) := by
    have := to_Dtype_intCast L.dtype (-((2 : ℤ) ^ n))
      (by rw [abs_of_nonpos (by omega)]; omega)
    rw [e2]
    push_cast at this ⊢
    exact this
  have a4 : to_Dtype L.dtype ((2 : ℚ) ^ (L.bit_width_ - 1) - 1)
      = (2 : ℚ) ^ (L.bit_width_ - 1) - 1 := by
    have := to_Dtype_intCast L.dtype ((2 : ℤ) ^ n - 1)
      (by rw [abs_of_nonneg (by omega)]; omega)
    rw [e2]
    push_cast at this ⊢
    exact this
  unfold clip_interval
  rw [a1, a2, a3, a4]

theorem example_clip_interval : clip_interval example_layer = (((-128 : ℤ) : ℚ), ((127 : ℤ) : ℚ)) := by
  rw [clip_interval_exact example_layer (by simp [example_layer])
    (by simp [example_layer, DtypeKind.prec])]
  norm_num [example_layer]

theorem example_scaling_factor : scaling_factor example_layer = Except.ok (fin 64) := by
  have h1 : Int.log 2 (16129 / 2 : ℚ) = 12 :=
    int_log_two_eq _ 12 (by norm_num) (by norm_num)
  have hn : neg_scaling_factor example_layer = LogVal.log2Of 64 := by
    rw [neg_scaling_factor, example_clip_interval]
    norm_num [example_layer, log2]
  have hp : pos_scaling_factor example_layer = LogVal.log2Of (127 / 2) := by
    rw [pos_scaling_factor, example_clip_interval]
    norm_num [example_layer, log2]
  rw [scaling_factor, hn, hp]
  norm_num [example_layer, LogVal.min, LogVal.lt, LogVal.round, pow2, DtypeKind.emax,
    DtypeKind.emin, h1]

theorem sorted_le_getLast : ∀ (l : List ℚ) (h : l ≠ []), l.Sorted (· ≤ ·) →
    ∀ x ∈ l, x ≤ l.getLast h
  | [a], _, _, x, hx => by
    simp only [List.mem_singleton] at hx
    simp [hx]
  | a :: b :: t, _, hs, x, hx => by
    have hs2 : (b :: t).Sorted (· ≤ ·) := hs.of_cons
    have ih := sorted_le_getLast (b :: t) (List.cons_ne_nil b t) hs2
    rw [List.getLast_cons (List.cons_ne_nil b t)]
    rcases List.mem_cons.1 hx with rfl | hx2
    · exact le_trans (List.rel_of_sorted_cons hs b (List.mem_cons_self b t))
        (ih b (List.mem_cons_self b t))
    · exact ih x hx2

/-- The two ends of the sorted scratch buffer are the least and the greatest weight. -/
theorem std_sort_ends (buf : List ℚ) (h : buf ≠ []) :
    ∃ lo hi, (std_sort buf).head? = some lo ∧ (std_sort buf).getLast? = some hi ∧
      lo ∈ buf ∧ hi ∈ buf ∧ (∀ x ∈ buf, lo ≤ x) ∧ (∀ x ∈ buf, x ≤ hi) := by
  have hperm : (std_sort buf).Perm buf := List.perm_insertionSort _ buf
  have hsorted : (std_sort buf).Sorted (· ≤ ·) := List.sorted_insertionSort _ buf
  have hne : std_sort buf ≠ [] := fun h0 => h (by
    have := hperm.length_eq
    rw [h0] at this
    exact List.length_eq_zero.1 this.symm)
  obtain ⟨a, t, hat⟩ := List.exists_cons_of_ne_nil hne
  refine ⟨a, (std_sort buf).getLast hne, by rw [hat]; rfl, List.getLast?_eq_getLast _ hne,
    hperm.subset (by rw [hat]; exact List.mem_cons_self a t),
    hperm.subset (List.getLast_mem hne), fun x hx => ?_, fun x hx => ?_⟩
  · have hx2 : x ∈ a :: t := hat ▸ hperm.symm.subset hx
    rw [hat] at hsorted
    rcases List.mem_cons.1 hx2 with rfl | hx3
    · exact le_refl _
    · exact List.rel_of_sorted_cons hsorted x hx3
  · exact sorted_le_getLast _ hne hsorted x (hperm.symm.subset hx)

/-- The loop of lines 147-150 quantizes position by position. -/
theorem quantize_buffer_pointwise (L : QuanConvolutionLayer) :
    ∀ (ws : List ℚ) (qs : List Dtype), quantize_buffer L ws = Except.ok qs →
      List.Forall₂ (fun w q => Weight_Quantization L (fin w) = Except.ok q) ws qs
  | [], qs, h => by
    simp only [quantize_buffer, Except.ok.injEq] at h
    subst h
    exact List.Forall₂.nil
  | w :: rest, qs, h => by
    unfold quantize_buffer at h
    cases hq : Weight_Quantization L (fin w) with
    | error e => rw [hq] at h; cases h
    | ok q =>
      rw [hq] at h
      cases hr : quantize_buffer L rest with
      | error e => rw [hr] at h; cases h
      | ok qs2 =>
        rw [hr] at h
        simp only [Except.ok.injEq] at h
        subst h
        exact List.Forall₂.cons hq (quantize_buffer_pointwise L rest qs2 hr)

/-- What `Forward_cpu` returns comes from `calibrate` followed by the quantization loop. -/
theorem Forward_cpu_ok (L L1 : QuanConvolutionLayer) (weight : List Dtype)
    (h : Forward_cpu L = Except.ok (L1, weight)) :
    ∃ tmp_weight, calibrate L = Except.ok (L1, tmp_weight) ∧
      quantize_buffer L1 tmp_weight = Except.ok weight := by
  unfold Forward_cpu at h
  cases hc : calibrate L with
  | error e => rw [hc] at h; cases h
  | ok r =>
    obtain ⟨L2, tmp⟩ := r
    rw [hc] at h
    simp only at h
    cases hq : quantize_buffer L2 tmp with
    | error e => rw [hq] at h; cases h
    | ok qs =>
      rw [hq] at h
      simp only [Except.ok.injEq, Prod.mk.injEq] at h
      obtain ⟨rfl, rfl⟩ := h
      exact ⟨tmp, rfl, hq⟩

/-- `calibrate` writes no member but the range, and hands on the stored weights or their
ascending rearrangement. -/
theorem calibrate_ok (L L1 : QuanConvolutionLayer) (tmp_weight : List ℚ)
    (h : calibrate L = Except.ok (L1, tmp_weight)) :
    L1.blobs_0 = L.blobs_0 ∧ L1.blobs_1 = L.blobs_1 ∧ L1.bit_width_ = L.bit_width_ ∧
      L1.round_method_ = L.round_method_ ∧ L1.round_strategy_ = L.round_strategy_ ∧
      L1.is_runtime_ = L.is_runtime_ ∧
      tmp_weight = (if L.is_runtime_ then std_sort L.blobs_0 else L.blobs_0) := by
  unfold calibrate at h
  by_cases hr : L.is_runtime_ = true
  · simp only [hr, if_true] at h
    cases h1 : (std_sort L.blobs_0).getLast? with
    | none => rw [h1] at h; cases h
    | some hi =>
      cases h2 : (std_sort L.blobs_0).head? with
      | none => rw [h1, h2] at h; cases h
      | some lo =>
        rw [h1, h2] at h
        simp only [Except.ok.injEq, Prod.mk.injEq] at h
        obtain ⟨rfl, rfl⟩ := h
        simp [hr]
  · simp only [hr] at h
    simp only [Bool.false_eq_true, if_false, Except.ok.injEq, Prod.mk.injEq] at h
    obtain ⟨rfl, rfl⟩ := h
    simp [hr]

theorem example_quantize_a :
    Weight_Quantization example_layer (fin (13 / 10)) = Except.ok (fin (83 / 64)) := by
  rw [Weight_Quantization_scheme example_layer _ _ _ _ example_scaling_factor
    example_clip_interval (by simp [example_layer]), clip_rescale_int _ _ _ _ (by norm_num)]
  have h : ⌊(13 / 10 : ℚ) * 64⌋ = 83 := by norm_num [Int.floor_eq_iff]
  rw [h]
  norm_num

theorem example_quantize_b :
    Weight_Quantization example_layer (fin (-2)) = Except.ok (fin (-2)) := by
  rw [Weight_Quantization_scheme example_layer _ _ _ _ example_scaling_factor
    example_clip_interval (by simp [example_layer]), clip_rescale_int _ _ _ _ (by norm_num)]
  have h : ⌊(-2 : ℚ) * 64⌋ = -128 := by norm_num [Int.floor_eq_iff]
  rw [h]
  norm_num

theorem example_quantize_c :
    Weight_Quantization example_layer (fin (3 / 2)) = Except.ok (fin (3 / 2)) := by
  rw [Weight_Quantization_scheme example_layer _ _ _ _ example_scaling_factor
    example_clip_interval (by simp [example_layer]), clip_rescale_int _ _ _ _ (by norm_num)]
  have h : ⌊(3 / 2 : ℚ) * 64⌋ = 96 := by norm_num [Int.floor_eq_iff]
  rw [h]
  norm_num

theorem example_forward :
    Forward_cpu example_layer = Except.ok (example_layer, [fin (3 / 2), fin (-2)]) := by
  have hc : calibrate example_layer = Except.ok (example_layer, [3 / 2, -2]) := by
    simp [calibrate, example_layer]
  simp [Forward_cpu, hc, quantize_buffer, example_quantize_c, example_quantize_b]

theorem unsorted_calibrate :
    calibrate unsorted_runtime_layer
      = Except.ok (unsorted_runtime_calibrated, [-2, 3 / 2]) := by
  have hs : std_sort [3 / 2, -2] = [-2, 3 / 2] := by
    simp [std_sort, List.insertionSort, List.orderedInsert]
    norm_num
  simp [calibrate, unsorted_runtime_layer, unsorted_runtime_calibrated, example_layer, hs]

theorem unsorted_clip_interval :
    clip_interval unsorted_runtime_calibrated = (((-128 : ℤ) : ℚ), ((127 : ℤ) : ℚ)) := by
  rw [clip_interval_exact _
    (by simp [unsorted_runtime_calibrated, unsorted_runtime_layer, example_layer])
    (by simp [unsorted_runtime_calibrated, unsorted_runtime_layer, example_layer,
      DtypeKind.prec])]
  norm_num [unsorted_runtime_calibrated, unsorted_runtime_layer, example_layer]

theorem unsorted_scaling_factor :
    scaling_factor unsorted_runtime_calibrated = Except.ok (fin 64) := by
  have h1 : Nat.log 2 8192 = 13 := by
    rw [Nat.log_eq_iff (by norm_num)]
    norm_num
  have hn : neg_scaling_factor unsorted_runtime_calibrated = LogVal.log2Of 64 := by
    rw [neg_scaling_factor, unsorted_clip_interval]
    norm_num [unsorted_runtime_calibrated, unsorted_runtime_layer, example_layer, log2]
  have hp : pos_scaling_factor unsorted_runtime_calibrated = LogVal.log2Of (254 / 3) := by
    rw [pos_scaling_factor, unsorted_clip_interval]
    norm_num [unsorted_runtime_calibrated, unsorted_runtime_layer, example_layer, log2]
  rw [scaling_factor, hn, hp]
  norm_num [unsorted_runtime_calibrated, unsorted_runtime_layer, example_layer, LogVal.min,
    LogVal.lt, LogVal.round, pow2, DtypeKind.emax, DtypeKind.emin, h1]

theorem unsorted_quantize_a :
    Weight_Quantization unsorted_runtime_calibrated (fin (3 / 2))
      = Except.ok (fin (3 / 2)) := by
  rw [Weight_Quantization_scheme _ _ _ _ _ unsorted_scaling_factor unsorted_clip_interval
    (by simp [unsorted_runtime_calibrated, unsorted_runtime_layer, example_layer]),
    clip_rescale_int _ _ _ _ (by norm_num)]
  have h : ⌊(3 / 2 : ℚ) * 64⌋ = 96 := by norm_num [Int.floor_eq_iff]
  rw [h]
  norm_num

theorem unsorted_quantize_b :
    Weight_Quantization unsorted_runtime_calibrated (fin (-2)) = Except.ok (fin (-2)) := by
  rw [Weight_Quantization_scheme _ _ _ _ _ unsorted_scaling_factor unsorted_clip_interval
    (by simp [unsorted_runtime_calibrated, unsorted_runtime_layer, example_layer]),
    clip_rescale_int _ _ _ _ (by norm_num)]
  have h : ⌊(-2 : ℚ) * 64⌋ = -128 := by norm_num [Int.floor_eq_iff]
  rw [h]
  norm_num

theorem runtime_calibrate :
    calibrate runtime_layer = Except.ok (runtime_calibrated, [-3, 1, 5 / 2]) := by
  have hs : std_sort [-3, 1, 5 / 2] = [-3, 1, 5 / 2] := by
    simp [std_sort, List.insertionSort, List.orderedInsert]
    norm_num
  simp [calibrate, runtime_layer, runtime_calibrated, example_layer, hs]

theorem unsorted_forward :
    Forward_cpu unsorted_runtime_layer
      = Except.ok (unsorted_runtime_calibrated, [fin (-2), fin (3 / 2)]) := by
  simp [Forward_cpu, unsorted_calibrate, quantize_buffer, unsorted_quantize_a,
    unsorted_quantize_b]

/-- The buffer that `Forward_cpu` passes on is, position by position, the quantization under
the calibrated range of the scratch buffer: the stored weights when `is_runtime_` is clear,
their ascending rearrangement when it is set. -/
theorem Forward_cpu_pointwise (L L1 : QuanConvolutionLayer) (weight : List Dtype)
    (h : Forward_cpu L = Except.ok (L1, weight)) :
    List.Forall₂ (fun w q => Weight_Quantization L1 (fin w) = Except.ok q)
      (if L.is_runtime_ then std_sort L.blobs_0 else L.blobs_0) weight := by
  obtain ⟨tmp, h1, h2⟩ := Forward_cpu_ok L L1 weight h
  obtain ⟨_, _, _, _, _, _, h3⟩ := calibrate_ok L L1 tmp h1
  rw [← h3]
  exact quantize_buffer_pointwise L1 tmp weight h2

/-- With `bit_width = 1` and a range of both signs `max_value` is 0, `pos_scaling_factor` is
`log2(0) = -inf`, and the scaling factor is `pow(2.0, -inf) = 0`. -/
theorem one_bit_scaling_factor : scaling_factor one_bit_layer = Except.ok (fin 0) := by
  have hci : clip_interval one_bit_layer = (-1, 0) := by
    rw [clip_interval_exact _ (by simp [one_bit_layer, example_layer])
      (by simp [one_bit_layer, example_layer, DtypeKind.prec])]
    norm_num [one_bit_layer, example_layer]
  have hn : neg_scaling_factor one_bit_layer = LogVal.log2Of (1 / 2) := by
    rw [neg_scaling_factor, hci]
    norm_num [one_bit_layer, example_layer, log2]
  have hp : pos_scaling_factor one_bit_layer = LogVal.negInf := by
    rw [pos_scaling_factor, hci]
    norm_num [one_bit_layer, example_layer, log2]
  rw [scaling_factor, hn, hp]
  simp [one_bit_layer, example_layer, LogVal.min, LogVal.lt, LogVal.round, pow2]

theorem two_le_two_zpow (b : ℤ) (hb : 1 ≤ b) : (2 : ℚ) ≤ (2 : ℚ) ^ b := by
  have h := zpow_le_zpow_right₀ (a := (2 : ℚ)) (by norm_num) hb
  simpa using h

theorem log2_cases (y : ℚ) (hy : 0 ≤ y) :
    (∃ x : ℚ, 0 < x ∧ log2 y = LogVal.log2Of x) ∨ log2 y = LogVal.negInf := by
  rcases hy.lt_or_eq with h | h
  · exact Or.inl ⟨y, h, by simp [log2, h]⟩
  · exact Or.inr (by simp [log2, ← h])

theorem LogVal.min_cases (a b : LogVal) : LogVal.min a b = a ∨ LogVal.min a b = b := by
  unfold LogVal.min
  split_ifs
  · exact Or.inr rfl
  · exact Or.inl rfl

/-- For a bit width `b ≥ 1` neither exponent is NaN, so their minimum is the logarithm of a
positive number, `+inf` or `-inf`. -/
theorem scaling_exponent_cases (L : QuanConvolutionLayer) (hb : 1 ≤ L.bit_width_) :
    (∃ x : ℚ, 0 < x ∧
      LogVal.min (neg_scaling_factor L) (pos_scaling_factor L) = LogVal.log2Of x) ∨
    LogVal.min (neg_scaling_factor L) (pos_scaling_factor L) = LogVal.posInf ∨
    LogVal.min (neg_scaling_factor L) (pos_scaling_factor L) = LogVal.negInf := by
  have hp := two_le_two_zpow L.bit_width_ hb
  have hq : (1 : ℚ) ≤ (2 : ℚ) ^ (L.bit_width_ - 1) := one_le_zpow₀ (by norm_num) (by omega)
  have hmin : (clip_interval L).1 ≤ 0 := by
    unfold clip_interval
    split_ifs
    · exact le_refl _
    · exact to_Dtype_nonpos _ _ (by linarith)
    · exact to_Dtype_nonpos _ _ (by linarith)
  have hmax : 0 ≤ (clip_interval L).2 := by
    unfold clip_interval
    split_ifs
    · exact to_Dtype_nonneg _ _ (by linarith)
    · exact le_refl _
    · exact to_Dtype_nonneg _ _ (by linarith)
  have hn : (∃ x : ℚ, 0 < x ∧ neg_scaling_factor L = LogVal.log2Of x) ∨
      neg_scaling_factor L = LogVal.posInf ∨ neg_scaling_factor L = LogVal.negInf := by
    unfold neg_scaling_factor
    split_ifs with h
    · rcases log2_cases _ (div_nonneg_of_nonpos hmin h.le) with h1 | h1
      · exact Or.inl h1
      · exact Or.inr (Or.inr h1)
    · exact Or.inr (Or.inl rfl)
  have hpz : (∃ x : ℚ, 0 < x ∧ pos_scaling_factor L = LogVal.log2Of x) ∨
      pos_scaling_factor L = LogVal.posInf ∨ pos_scaling_factor L = LogVal.negInf := by
    unfold pos_scaling_factor
    split_ifs with h
    · rcases log2_cases _ (div_nonneg hmax h.le) with h1 | h1
      · exact Or.inl h1
      · exact Or.inr (Or.inr h1)
    · exact Or.inr (Or.inl rfl)
  rcases LogVal.min_cases (neg_scaling_factor L) (pos_scaling_factor L) with h | h
  · rw [h]; exact hn
  · rw [h]; exact hpz

/-- The rounding of `LogVal.floor` is at most that of `LogVal.round`. -/
theorem log_floor_le_round (x : ℚ) (hx : 0 < x) : Int.log 2 x ≤ Int.log 2 (2 * x * x) / 2 := by
  have h1 : (2 : ℚ) ^ Int.log 2 x ≤ x := by
    have := Int.zpow_log_le_self (b := 2) (by norm_num) hx
    exact_mod_cast this
  have h0 : (0 : ℚ) < (2 : ℚ) ^ Int.log 2 x := by positivity
  have h2 : (2 : ℚ) ^ (2 * Int.log 2 x + 1) ≤ 2 * x * x := by
    have e : (2 : ℚ) ^ (2 * Int.log 2 x + 1)
        = 2 * ((2 : ℚ) ^ Int.log 2 x * (2 : ℚ) ^ Int.log 2 x) := by
      rw [show 2 * Int.log 2 x + 1 = Int.log 2 x + Int.log 2 x + 1 by ring,
        zpow_add₀ (by norm_num), zpow_add₀ (by norm_num), zpow_one]
      ring
    rw [e]
    nlinarith [mul_le_mul h1 h1 h0.le hx.le]
  have h3 : 2 * Int.log 2 x + 1 ≤ Int.log 2 (2 * x * x) :=
    (Int.zpow_le_iff_le_log (b := 2) (by norm_num) (by positivity)).1 (by exact_mod_cast h2)
  omega

/-- The rounding of `LogVal.round` is at most that of `LogVal.ceil`. -/
theorem log_round_le_ceil (x : ℚ) (hx : 0 < x) : Int.log 2 (2 * x * x) / 2 ≤ Int.clog 2 x := by
  have h1 : x ≤ (2 : ℚ) ^ Int.clog 2 x := by
    have := Int.self_le_zpow_clog (b := 2) (by norm_num) x
    exact_mod_cast this
  have h0 : (0 : ℚ) < (2 : ℚ) ^ Int.clog 2 x := by positivity
  have h2 : 2 * x * x < (2 : ℚ) ^ (2 * Int.clog 2 x + 2) := by
    have e : (2 : ℚ) ^ (2 * Int.clog 2 x + 2)
        = 4 * ((2 : ℚ) ^ Int.clog 2 x * (2 : ℚ) ^ Int.clog 2 x) := by
      rw [show 2 * Int.clog 2 x + 2 = Int.clog 2 x + Int.clog 2 x + 2 by ring,
        zpow_add₀ (by norm_num), zpow_add₀ (by norm_num)]
      norm_num
      ring
    rw [e]
    nlinarith [mul_le_mul h1 h1 hx.le h0.le, mul_pos h0 h0]
  have h3 : Int.log 2 (2 * x * x) < 2 * Int.clog 2 x + 2 :=
    (Int.lt_zpow_iff_log_lt (b := 2) (by norm_num) (by positivity)).1 (by exact_mod_cast h2)
  omega

/-- The stored power `pow(2.0, n)` is non-decreasing in `n`, overflow and underflow
included. -/
theorem pow2_int_le (k : DtypeKind) (m n : ℤ) (h : m ≤ n) :
    (pow2 k (Exponent.int m)).le (pow2 k (Exponent.int n)) = true := by
  unfold pow2
  by_cases h1 : k.emax ≤ m
  · have h2 : k.emax ≤ n := le_trans h1 h
    simp [h1, h2, Dtype.le]
  · by_cases h2 : k.emax ≤ n
    · by_cases h3 : m < k.emin <;> simp [h1, h2, h3, Dtype.le]
    · by_cases h3 : n < k.emin
      · have h4 : m < k.emin := lt_of_le_of_lt h h3
        simp [h1, h2, h3, h4, Dtype.le]
      · by_cases h4 : m < k.emin
        · simp only [h1, h2, h3, h4, if_true, if_false, Dtype.le, decide_eq_true_eq]
          positivity
        · simp only [h1, h2, h3, h4, if_false, Dtype.le, decide_eq_true_eq]
          exact zpow_le_zpow_right₀ (by norm_num) h

theorem wrap32_eq (x : ℤ) (h1 : -(2 ^ 31) ≤ x) (h2 : x < 2 ^ 31) : wrap32 x = x := by
  unfold wrap32
  norm_num at h1 h2 ⊢
  omega

/-- Without overflow, and with the padded input at least as long as the kernel extent, the
quotient of lines 98-99 is a quotient of non-negative numbers. -/
theorem output_dim_eq_ediv (input_dim kernel stride pad dilation : ℤ) (hi : 0 ≤ input_dim)
    (hp : 0 ≤ pad) (hk : 1 ≤ kernel) (hd : 1 ≤ dilation) (hs : 1 ≤ stride)
    (hfit : input_dim + 2 * pad < 2 ^ 31)
    (hext : dilation * (kernel - 1) + 1 ≤ input_dim + 2 * pad) :
    output_dim input_dim kernel stride pad dilation
      = (input_dim + 2 * pad - dilation * (kernel - 1) - 1) / stride + 1 := by
  have ha : 0 ≤ dilation * (kernel - 1) := mul_nonneg (by omega) (by omega)
  have hk1 : kernel - 1 ≤ dilation * (kernel - 1) := by nlinarith
  generalize hA : dilation * (kernel - 1) = A at *
  have hq1 : 0 ≤ (input_dim + 2 * pad - A - 1) / stride :=
    Int.ediv_nonneg (by omega) (by omega)
  have hq2 : (input_dim + 2 * pad - A - 1) / stride ≤ input_dim + 2 * pad - A - 1 :=
    Int.ediv_le_self _ (by omega)
  norm_num at hfit
  unfold output_dim
  simp only
  rw [wrap32_eq (kernel - 1) (by norm_num; omega) (by norm_num; omega), hA,
    wrap32_eq A (by norm_num; omega) (by norm_num; omega),
    wrap32_eq (A + 1) (by norm_num; omega) (by norm_num; omega),
    wrap32_eq (2 * pad) (by norm_num; omega) (by norm_num; omega),
    wrap32_eq (input_dim + 2 * pad) (by norm_num; omega) (by norm_num; omega),
    wrap32_eq (input_dim + 2 * pad - (A + 1)) (by norm_num; omega) (by norm_num; omega),
    Int.tdiv_eq_ediv (by omega) (by omega),
    show input_dim + 2 * pad - (A + 1) = input_dim + 2 * pad - A - 1 by ring,
    wrap32_eq _ (by norm_num; omega) (by norm_num; omega)]

theorem floor_int_div (n d : ℤ) (hd : 1 ≤ d) : ⌊(n : ℚ) / (d : ℚ)⌋ = n / d := by
  obtain ⟨k, rfl⟩ := Int.eq_ofNat_of_zero_le (by omega : 0 ≤ d)
  rw [Int.cast_natCast]
  exact Rat.floor_intCast_div_natCast n k

theorem two_zpow_log_le (z : ℚ) (hz : 0 < z) : (2 : ℚ) ^ Int.log 2 z ≤ z := by
  have := Int.zpow_log_le_self (b := 2) (by norm_num) hz
  exact_mod_cast this

theorem log2_eq_log2Of (y x : ℚ) (h : log2 y = LogVal.log2Of x) : 0 < x ∧ y = x := by
  unfold log2 at h
  split_ifs at h with h1 h2
  injection h with h
  exact ⟨h ▸ h1, h⟩

/-- A finite exponent is the logarithm of a positive number. -/
theorem scaling_exponent_pos (L : QuanConvolutionLayer) (x : ℚ)
    (h : LogVal.min (neg_scaling_factor L) (pos_scaling_factor L) = LogVal.log2Of x) :
    0 < x := by
  rcases LogVal.min_cases (neg_scaling_factor L) (pos_scaling_factor L) with h1 | h1
  · rw [h1] at h
    unfold neg_scaling_factor at h
    split_ifs at h
    exact (log2_eq_log2Of _ _ h).1
  · rw [h1] at h
    unfold pos_scaling_factor at h
    split_ifs at h
    exact (log2_eq_log2Of _ _ h).1

theorem conservative_scaling_factor :
    scaling_factor conservative_layer = Except.ok (fin 32) := by
  have h1 : Int.log 2 (127 / 2 : ℚ) = 5 := int_log_two_eq _ 5 (by norm_num) (by norm_num)
  have hci : clip_interval conservative_layer = (-128, 127) := by
    rw [clip_interval_exact _ (by simp [conservative_layer, example_layer])
      (by simp [conservative_layer, example_layer, DtypeKind.prec])]
    norm_num [conservative_layer, example_layer]
  have hn : neg_scaling_factor conservative_layer = LogVal.log2Of 64 := by
    rw [neg_scaling_factor, hci]
    norm_num [conservative_layer, example_layer, log2]
  have hp : pos_scaling_factor conservative_layer = LogVal.log2Of (127 / 2) := by
    rw [pos_scaling_factor, hci]
    norm_num [conservative_layer, example_layer, log2]
  rw [scaling_factor, hn, hp]
  norm_num [conservative_layer, example_layer, LogVal.min, LogVal.lt, LogVal.floor, pow2,
    DtypeKind.emax, DtypeKind.emin, h1]

theorem example_scaling_exponent :
    LogVal.min (neg_scaling_factor example_layer) (pos_scaling_factor example_layer)
      = LogVal.log2Of (127 / 2) := by
  have hci : clip_interval example_layer = (-128, 127) := by
    rw [example_clip_interval]
    norm_num
  have hn : neg_scaling_factor example_layer = LogVal.log2Of 64 := by
    rw [neg_scaling_factor, hci]
    norm_num [example_layer, log2]
  have hp : pos_scaling_factor example_layer = LogVal.log2Of (127 / 2) := by
    rw [pos_scaling_factor, hci]
    norm_num [example_layer, log2]
  rw [hn, hp]
  norm_num [LogVal.min, LogVal.lt]

theorem rne_eval (p : ℕ) (x : ℚ) (e : ℤ) (hx : x ≠ 0) (he : Int.log 2 |x| = e) :
    rne p x = (round_half_even (x / 2 ^ (e - (p : ℤ) + 1)) : ℚ) * 2 ^ (e - (p : ℤ) + 1) := by
  unfold rne
  rw [if_neg hx, he]

/-- Stored in a `double`, `2^54 - 1` becomes `2^54` (a halfway case, rounded to even). -/
theorem to_Dtype_double_54 : to_Dtype DtypeKind.double (2 ^ (54 : ℤ) - 1) = 2 ^ 54 := by
  have hl : Int.log 2 |(18014398509481983 : ℚ)| = 53 := by
    rw [abs_of_pos (by norm_num)]
    exact int_log_two_eq _ 53 (by norm_num) (by norm_num)
  have hl2 : Int.log 2 |(18014398509481984 : ℚ)| = 54 := by
    rw [abs_of_pos (by norm_num)]
    exact int_log_two_eq _ 54 (by norm_num) (by norm_num)
  have hf : ⌊(18014398509481983 : ℚ) / 2⌋ = 9007199254740991 := by
    norm_num [Int.floor_eq_iff]
  have h1 : rne 53 ((2 : ℚ) ^ (54 : ℤ) - 1) = 18014398509481984 := by
    rw [show (2 : ℚ) ^ (54 : ℤ) - 1 = 18014398509481983 by norm_num,
      rne_eval 53 _ 53 (by norm_num) hl]
    have hq : round_half_even ((18014398509481983 : ℚ) / 2 ^ ((53 : ℤ) - ((53 : ℕ) : ℤ) + 1))
        = 9007199254740992 := by
      norm_num [round_half_even, hf]
    rw [hq]
    norm_num
  have h2 : rne 53 (18014398509481984 : ℚ) = 18014398509481984 := by
    rw [rne_eval 53 _ 54 (by norm_num) hl2]
    have hq : round_half_even ((18014398509481984 : ℚ) / 2 ^ ((54 : ℤ) - ((53 : ℕ) : ℤ) + 1))
        = 4503599627370496 := by
      have : (18014398509481984 : ℚ) / 2 ^ ((54 : ℤ) - ((53 : ℕ) : ℤ) + 1)
          = ((4503599627370496 : ℤ) : ℚ) := by norm_num
      rw [this, round_half_even_intCast]
    rw [hq]
    norm_num
  rw [to_Dtype, h1]
  simp only [DtypeKind.prec]
  rw [h2]
  norm_num

/-- C1 (the code departs from it): with `is_runtime_` set and the stored weights
`[3/2, -2]`, the buffer that `Forward_cpu` passes to the convolution is `[-2, 3/2]`: its
entry 0 is the quantization of the stored weight at index 1, while the stored weight at index
0 quantizes to `3/2` under the calibrated range.  The sort of lines 137-139 rearranges the
scratch buffer itself. -/
theorem Forward_cpu_runtime_reorders :
    unsorted_runtime_layer.blobs_0 = [3 / 2, -2] ∧
    Forward_cpu unsorted_runtime_layer
      = Except.ok (unsorted_runtime_calibrated, [fin (-2), fin (3 / 2)]) ∧
    Weight_Quantization unsorted_runtime_calibrated (fin (3 / 2))
      = Except.ok (fin (3 / 2)) ∧
    Weight_Quantization unsorted_runtime_calibrated (fin (-2)) = Except.ok (fin (-2)) ∧
    (fin (-2) : Dtype) ≠ fin (3 / 2) := by
  refine ⟨rfl, unsorted_forward, unsorted_quantize_a, unsorted_quantize_b, ?_⟩
  · intro h
    injection h with h
    norm_num at h

/-- C2: with a finite positive scaling factor `s` and integer bounds `m ≤ M`, the value that
lines 79-82 produce is `k / s` for an integer `k` with `m ≤ k ≤ M`; and whenever the scheme
that `Weight_Quantization` selects is such an `(s, m, M)` and the method is recognised, that
is the value it writes back. -/
theorem quantized_value_on_grid (w s : ℚ) (m M : ℤ) (hs : 0 < s) (hmM : m ≤ M) :
    (∃ k : ℤ, m ≤ k ∧ k ≤ M ∧ clip_rescale (fin w) (fin s) m M = fin (k / s)) ∧
    ∀ L : QuanConvolutionLayer, scaling_factor L = Except.ok (fin s) →
      clip_interval L = ((m : ℚ), (M : ℚ)) → L.round_method_ ≠ RoundMethod.UNKNOWN →
      ∃ k : ℤ, m ≤ k ∧ k ≤ M ∧ Weight_Quantization L (fin w) = Except.ok (fin (k / s)) := by
  have key : ∃ k : ℤ, m ≤ k ∧ k ≤ M ∧ clip_rescale (fin w) (fin s) m M = fin (k / s) :=
    ⟨min (max ⌊w * s⌋ m) M, (clamp_int_mem _ m M hmM).1, (clamp_int_mem _ m M hmM).2,
      clip_rescale_int w s m M hs.ne'⟩
  refine ⟨key, fun L hsf hci hm => ?_⟩
  obtain ⟨k, h1, h2, h3⟩ := key
  exact ⟨k, h1, h2, by rw [Weight_Quantization_scheme L _ _ _ _ hsf hci hm, h3]⟩

/-- C2 at `bit_width = 8`, range `(-2, 2)`, NEUTRAL, weight `13/10`: the scheme is
`(64, -128, 127)`. -/
theorem quantized_value_on_grid_witness :
    (∃ k : ℤ, (-128 : ℤ) ≤ k ∧ k ≤ 127 ∧
      clip_rescale (fin (13 / 10)) (fin 64) ((-128 : ℤ) : ℚ) ((127 : ℤ) : ℚ) = fin (k / 64)) ∧
    ∃ k : ℤ, (-128 : ℤ) ≤ k ∧ k ≤ 127 ∧
      Weight_Quantization example_layer (fin (13 / 10)) = Except.ok (fin (k / 64)) :=
  ⟨(quantized_value_on_grid (13 / 10) 64 (-128) 127 (by norm_num) (by norm_num)).1,
    (quantized_value_on_grid (13 / 10) 64 (-128) 127 (by norm_num) (by norm_num)).2
      example_layer example_scaling_factor example_clip_interval (by simp [example_layer])⟩

/-- C3 (the code departs from it): the comments of lines 22-31 give the intervals
`[0, 2^N-1]`, `[-2^N+1, 0]` and `[-2^(N-1), 2^(N-1)-1]`, but the bounds are stored in a
`Dtype`.  With `Dtype = float`, `bit_width = 32` and `range_low_ = 0` the stored `max_value`
is `2^32`, not `2^32 - 1`; with `Dtype = double` and `bit_width = 54` it is `2^54`. -/
theorem clip_interval_float_32 :
    float32_layer.dtype = DtypeKind.float ∧ float32_layer.bit_width_ = 32 ∧
    0 ≤ float32_layer.range_low_ ∧
    clip_interval float32_layer = (0, 2 ^ 32) ∧
    (2 : ℚ) ^ 32 ≠ 2 ^ float32_layer.bit_width_ - 1 ∧
    clip_interval double54_layer = (0, 2 ^ 54) ∧
    (2 : ℚ) ^ 54 ≠ 2 ^ double54_layer.bit_width_ - 1 := by
  refine ⟨rfl, rfl, by simp [float32_layer], ?_, ?_, ?_, ?_⟩
  · have h := to_Dtype_float_32
    simp only [clip_interval, float32_layer, le_refl, if_true]
    rw [h]
  · norm_num [float32_layer]
  · have h := to_Dtype_double_54
    simp only [clip_interval, double54_layer, example_layer, le_refl, if_true]
    rw [h]
  · norm_num [double54_layer]

/-- C4 (the code departs from it): line 37 says the scaling factor should be a power of two,
but with `bit_width = 8`, the range `(0, 0)` (so `low ≤ high`; the runtime range of an
all-zero weight buffer) and the CONSERVATIVE strategy both exponents are `+inf`, the scaling
factor is `pow(2.0, +inf) = +inf`, no `2 ^ n` and not finite, and the weight `0` is written
back as NaN. -/
theorem scaling_factor_zero_range_inf :
    1 ≤ zero_range_layer.bit_width_ ∧
    zero_range_layer.range_low_ ≤ zero_range_layer.range_high_ ∧
    zero_range_layer.round_strategy_ ≠ RoundStrategy.UNKNOWN ∧
    scaling_factor zero_range_layer = Except.ok Dtype.posInf ∧
    (¬ ∃ n : ℤ, scaling_factor zero_range_layer = Except.ok (fin ((2 : ℚ) ^ n))) ∧
    Weight_Quantization zero_range_layer (fin 0) = Except.ok Dtype.nan := by
  have h : scaling_factor zero_range_layer = Except.ok Dtype.posInf := by
    simp [scaling_factor, zero_range_layer, example_layer, neg_scaling_factor,
      pos_scaling_factor, LogVal.min, LogVal.lt, LogVal.floor, pow2]
  refine ⟨by simp [zero_range_layer, example_layer], by simp [zero_range_layer, example_layer],
    by simp [zero_range_layer, example_layer], h, ?_, ?_⟩
  · rintro ⟨n, hn⟩
    rw [h] at hn
    cases hn
  · rw [Weight_Quantization_eq _ _ _ h (by simp [zero_range_layer, example_layer])]
    simp [clip_rescale, Dtype.mul, Dtype.floor, std_max, std_min, Dtype.lt, Dtype.div]

/-- C5 (the code departs from it): with `bit_width = 8`, range `(-2, 2)`, NEUTRAL, so the
scheme `(64, -128, 127)`, the method CEIL and the weight `85/128`, the `switch` on the method
computes `ceil(42.5) = 43`, line 79 replaces it by `floor(42.5) = 42`, and
`Weight_Quantization` writes `42/64 = 21/32`; the claim's value `clamp(ceil(w * s)) / s` is
`43/64`. -/
theorem Weight_Quantization_ignores_CEIL :
    scaling_factor ceil_layer = Except.ok (fin 64) ∧
    clip_interval ceil_layer = ((-128 : ℚ), (127 : ℚ)) ∧
    round_by_method ceil_layer.round_method_ (fin (85 / 128)) (fin 64) = Except.ok (fin 43) ∧
    Weight_Quantization ceil_layer (fin (85 / 128)) = Except.ok (fin (21 / 32)) ∧
    spec_quantize_one RoundMethod.CEIL (85 / 128) 64 (-128) 127 = some (43 / 64) ∧
    (21 / 32 : ℚ) ≠ 43 / 64 := by
  have hsf : scaling_factor ceil_layer = Except.ok (fin 64) := example_scaling_factor
  have hci : clip_interval ceil_layer = (((-128 : ℤ) : ℚ), ((127 : ℤ) : ℚ)) :=
    example_clip_interval
  have hc : ⌈(85 / 128 : ℚ) * 64⌉ = 43 := by norm_num [Int.ceil_eq_iff]
  have hf : ⌊(85 / 128 : ℚ) * 64⌋ = 42 := by norm_num [Int.floor_eq_iff]
  refine ⟨hsf, by rw [hci]; norm_num, ?_, ?_, ?_, by norm_num⟩
  · simp only [ceil_layer, round_by_method, Dtype.mul, Dtype.ceil, hc]
    norm_num
  · rw [Weight_Quantization_scheme _ _ _ _ _ hsf hci (by simp [ceil_layer]),
      clip_rescale_int _ _ _ _ (by norm_num), hf]
    norm_num
  · simp only [spec_quantize_one, spec_round, hc, Option.map_some']
    norm_num

/-- C6: with `is_runtime_` set and at least one stored weight, the calibration of
`Forward_cpu` succeeds and sets `range_low_` to the least and `range_high_` to the greatest
stored weight, so `range_low_ ≤ range_high_`; the weights `[-3, 1, 5/2]` give `(-3, 5/2)`.
With `is_runtime_` clear it succeeds and leaves the configured range as it is.  The layer
that `Forward_cpu` returns carries the range of this calibration. -/
theorem calibrate_range (L : QuanConvolutionLayer) :
    (L.is_runtime_ = true → L.blobs_0 ≠ [] →
      ∃ L1 tmp_weight, calibrate L = Except.ok (L1, tmp_weight) ∧
        L1.range_low_ ∈ L.blobs_0 ∧ (∀ x ∈ L.blobs_0, L1.range_low_ ≤ x) ∧
        L1.range_high_ ∈ L.blobs_0 ∧ (∀ x ∈ L.blobs_0, x ≤ L1.range_high_) ∧
        L1.range_low_ ≤ L1.range_high_) ∧
    (L.is_runtime_ = false →
      ∃ L1 tmp_weight, calibrate L = Except.ok (L1, tmp_weight) ∧
        L1.range_low_ = L.range_low_ ∧ L1.range_high_ = L.range_high_) ∧
    (∀ L2 weight, Forward_cpu L = Except.ok (L2, weight) →
      ∃ tmp_weight, calibrate L = Except.ok (L2, tmp_weight)) ∧
    (∃ L1 tmp_weight, calibrate runtime_layer = Except.ok (L1, tmp_weight) ∧
      runtime_layer.blobs_0 = [-3, 1, 5 / 2] ∧ L1.range_low_ = -3 ∧ L1.range_high_ = 5 / 2) := by
  refine ⟨fun hr hne => ?_, fun hr => ?_, fun L2 weight h => ?_, ?_⟩
  · obtain ⟨lo, hi, h1, h2, h3, h4, h5, h6⟩ := std_sort_ends L.blobs_0 hne
    refine ⟨{ L with range_high_ := hi, range_low_ := lo }, std_sort L.blobs_0, ?_,
      h3, h5, h4, h6, h5 hi h4⟩
    simp [calibrate, hr, h1, h2]
  · exact ⟨L, L.blobs_0, by simp [calibrate, hr], rfl, rfl⟩
  · obtain ⟨tmp, h1, _⟩ := Forward_cpu_ok L L2 weight h
    exact ⟨tmp, h1⟩
  · exact ⟨runtime_calibrated, [-3, 1, 5 / 2], runtime_calibrate, rfl, rfl, rfl⟩

/-- C6 at the stored weights `[-3, 1, 5/2]` (runtime) and at the static range `(-2, 2)`. -/
theorem calibrate_range_witness :
    (∃ L1 tmp_weight, calibrate runtime_layer = Except.ok (L1, tmp_weight) ∧
      L1.range_low_ ∈ runtime_layer.blobs_0 ∧ (∀ x ∈ runtime_layer.blobs_0, L1.range_low_ ≤ x) ∧
      L1.range_high_ ∈ runtime_layer.blobs_0 ∧
      (∀ x ∈ runtime_layer.blobs_0, x ≤ L1.range_high_) ∧
      L1.range_low_ ≤ L1.range_high_) ∧
    (∃ L1 tmp_weight, calibrate example_layer = Except.ok (L1, tmp_weight) ∧
      L1.range_low_ = example_layer.range_low_ ∧
      L1.range_high_ = example_layer.range_high_) ∧
    ∃ tmp_weight, calibrate example_layer = Except.ok (example_layer, tmp_weight) :=
  ⟨(calibrate_range runtime_layer).1 rfl (by simp [runtime_layer]),
    (calibrate_range example_layer).2.1 rfl,
    (calibrate_range example_layer).2.2.1 _ _ example_forward⟩

/-- C7: when `Forward_cpu` completes, the stored weights `blobs_[0]` and the stored bias
`blobs_[1]` are what they were before the call, so the `weight` that `Backward_cpu` reads
afterwards is the stored full-precision buffer; only the scratch copy was sorted and
quantized. -/
theorem Forward_cpu_frame (L L1 : QuanConvolutionLayer) (weight : List Dtype)
    (h : Forward_cpu L = Except.ok (L1, weight)) :
    L1.blobs_0 = L.blobs_0 ∧ L1.blobs_1 = L.blobs_1 ∧ Backward_cpu_weight L1 = L.blobs_0 := by
  obtain ⟨tmp, h1, _⟩ := Forward_cpu_ok L L1 weight h
  obtain ⟨h0, hb, _⟩ := calibrate_ok L L1 tmp h1
  exact ⟨h0, hb, h0⟩

/-- C7 at a runtime-calibrated layer whose scratch buffer is rearranged by the sort. -/
theorem Forward_cpu_frame_witness :
    Forward_cpu unsorted_runtime_layer
      = Except.ok (unsorted_runtime_calibrated, [fin (-2), fin (3 / 2)]) ∧
    unsorted_runtime_calibrated.blobs_0 = unsorted_runtime_layer.blobs_0 ∧
    unsorted_runtime_calibrated.blobs_1 = unsorted_runtime_layer.blobs_1 ∧
    Backward_cpu_weight unsorted_runtime_calibrated = unsorted_runtime_layer.blobs_0 :=
  ⟨unsorted_forward, Forward_cpu_frame _ _ _ unsorted_forward⟩

/-- C8: with a finite positive scaling factor `s` and integer bounds `m ≤ M`, lines 79-82
applied to their own result return it; and whenever the scheme that `Weight_Quantization`
selects is such an `(s, m, M)` and the method is recognised, quantizing the value it wrote
writes the same value. -/
theorem quantize_idempotent (w s : ℚ) (m M : ℤ) (hs : 0 < s) (hmM : m ≤ M) :
    clip_rescale (clip_rescale (fin w) (fin s) m M) (fin s) m M
      = clip_rescale (fin w) (fin s) m M ∧
    ∀ L : QuanConvolutionLayer, scaling_factor L = Except.ok (fin s) →
      clip_interval L = ((m : ℚ), (M : ℚ)) → L.round_method_ ≠ RoundMethod.UNKNOWN →
      ∃ q : Dtype, Weight_Quantization L (fin w) = Except.ok q ∧
        Weight_Quantization L q = Except.ok q := by
  have key : clip_rescale (clip_rescale (fin w) (fin s) m M) (fin s) m M
      = clip_rescale (fin w) (fin s) m M := by
    obtain ⟨h1, h2⟩ := clamp_int_mem ⌊w * s⌋ m M hmM
    rw [clip_rescale_int w s m M hs.ne', clip_rescale_int _ s m M hs.ne',
      div_mul_cancel₀ _ hs.ne', Int.floor_intCast, max_eq_left h1, min_eq_left h2]
  refine ⟨key, fun L hsf hci hm => ⟨clip_rescale (fin w) (fin s) m M, ?_, ?_⟩⟩
  · exact Weight_Quantization_scheme L _ _ _ _ hsf hci hm
  · rw [Weight_Quantization_scheme L _ _ _ _ hsf hci hm, key]

/-- C8 at `bit_width = 8`, range `(-2, 2)`, NEUTRAL, weight `13/10`. -/
theorem quantize_idempotent_witness :
    clip_rescale (clip_rescale (fin (13 / 10)) (fin 64) ((-128 : ℤ) : ℚ) ((127 : ℤ) : ℚ))
        (fin 64) ((-128 : ℤ) : ℚ) ((127 : ℤ) : ℚ)
      = clip_rescale (fin (13 / 10)) (fin 64) ((-128 : ℤ) : ℚ) ((127 : ℤ) : ℚ) ∧
    ∃ q : Dtype, Weight_Quantization example_layer (fin (13 / 10)) = Except.ok q ∧
      Weight_Quantization example_layer q = Except.ok q :=
  ⟨(quantize_idempotent (13 / 10) 64 (-128) 127 (by norm_num) (by norm_num)).1,
    (quantize_idempotent (13 / 10) 64 (-128) 127 (by norm_num) (by norm_num)).2
      example_layer example_scaling_factor example_clip_interval (by simp [example_layer])⟩

/-- C9: for every range and every bit width `b ≥ 1`, the three strategies applied to the
same layer all select a scaling factor, and CONSERVATIVE's is `<=` NEUTRAL's, which is `<=`
AGGRESSIVE's (the C++ comparison, on which `+inf <= +inf` holds). -/
theorem scaling_factor_strategy_order (L : QuanConvolutionLayer) (hb : 1 ≤ L.bit_width_) :
    ∃ c n a : Dtype,
      scaling_factor { L with round_strategy_ := RoundStrategy.CONSERVATIVE } = Except.ok c ∧
      scaling_factor { L with round_strategy_ := RoundStrategy.NEUTRAL } = Except.ok n ∧
      scaling_factor { L with round_strategy_ := RoundStrategy.AGGRESSIVE } = Except.ok a ∧
      c.le n = true ∧ n.le a = true := by
  refine ⟨_, _, _, rfl, rfl, rfl, ?_⟩
  have e1 : ∀ s, neg_scaling_factor { L with round_strategy_ := s } = neg_scaling_factor L :=
    fun _ => rfl
  have e2 : ∀ s, pos_scaling_factor { L with round_strategy_ := s } = pos_scaling_factor L :=
    fun _ => rfl
  simp only [e1, e2]
  rcases scaling_exponent_cases L hb with ⟨x, hx, h⟩ | h | h
  · rw [h]
    exact ⟨pow2_int_le _ _ _ (log_floor_le_round x hx),
      pow2_int_le _ _ _ (log_round_le_ceil x hx)⟩
  · rw [h]
    exact ⟨rfl, rfl⟩
  · rw [h]
    simp [LogVal.floor, LogVal.round, LogVal.ceil, pow2, Dtype.le]

/-- C9 at `bit_width = 8`, range `(-2, 2)`: the three scaling factors are 32, 64 and 64. -/
theorem scaling_factor_strategy_order_witness :
    ∃ c n a : Dtype,
      scaling_factor { example_layer with round_strategy_ := RoundStrategy.CONSERVATIVE }
        = Except.ok c ∧
      scaling_factor { example_layer with round_strategy_ := RoundStrategy.NEUTRAL }
        = Except.ok n ∧
      scaling_factor { example_layer with round_strategy_ := RoundStrategy.AGGRESSIVE }
        = Except.ok a ∧
      c.le n = true ∧ n.le a = true :=
  scaling_factor_strategy_order example_layer (by simp [example_layer])

/-- C10 as amended: on a spatial axis `i` with `input_dim ≥ 0`, `pad ≥ 0`, `kernel ≥ 1`,
`dilation ≥ 1`, `stride ≥ 1`, where `input_dim + 2*pad` fits an `int` and is at least the
kernel extent `dilation*(kernel-1) + 1`, entry `i` of the shape that `compute_output_shape`
produces is `floor((input_dim + 2*pad - dilation*(kernel-1) - 1) / stride) + 1`, with the
floor of the exact quotient. -/
theorem compute_output_shape_floor (G : ConvGeometry) (i : ℕ) (hi : i < G.num_spatial_axes_)
    (hin : 0 ≤ G.input_shape (i + 1)) (hp : 0 ≤ G.pad_data i) (hk : 1 ≤ G.kernel_shape_data i)
    (hd : 1 ≤ G.dilation_data i) (hs : 1 ≤ G.stride_data i)
    (hfit : G.input_shape (i + 1) + 2 * G.pad_data i < 2 ^ 31)
    (hext : G.dilation_data i * (G.kernel_shape_data i - 1) + 1
      ≤ G.input_shape (i + 1) + 2 * G.pad_data i) :
    (compute_output_shape G)[i]? = some
      (⌊((G.input_shape (i + 1) + 2 * G.pad_data i
          - G.dilation_data i * (G.kernel_shape_data i - 1) - 1 : ℤ) : ℚ)
        / (G.stride_data i : ℚ)⌋ + 1) := by
  rw [floor_int_div _ _ hs, ← output_dim_eq_ediv _ _ _ _ _ hin hp hk hd hs hfit hext]
  simp [compute_output_shape, List.getElem?_map, List.getElem?_range hi]

/-- C10 at `input_dim = 8`, `kernel = 3`, `stride = 1`, `pad = 1`, `dilation = 1`: the
output dimension is 8. -/
theorem compute_output_shape_floor_witness :
    (compute_output_shape same_padding_geometry)[0]? = some
      (⌊(((8 : ℤ) + 2 * 1 - 1 * (3 - 1) - 1 : ℤ) : ℚ) / ((1 : ℤ) : ℚ)⌋ + 1) ∧
    compute_output_shape same_padding_geometry = [8] :=
  ⟨compute_output_shape_floor same_padding_geometry 0 (by decide) (by decide) (by decide)
      (by decide) (by decide) (by decide) (by decide) (by decide),
    by decide⟩

/-- C10 as stated fails: with `input_dim = 2`, `pad = 0`, `kernel = 3`, `dilation = 1`,
`stride = 2` the quotient `(2 - 3) / 2` is truncated toward zero, so `compute_output_shape`
produces 1, while `floor((2 + 0 - 2 - 1) / 2) + 1 = 0`. -/
theorem compute_output_shape_trunc_counterexample :
    (0 : ℤ) ≤ small_input_geometry.pad_data 0 ∧ 1 ≤ small_input_geometry.kernel_shape_data 0 ∧
    1 ≤ small_input_geometry.dilation_data 0 ∧ 1 ≤ small_input_geometry.stride_data 0 ∧
    compute_output_shape small_input_geometry = [1] ∧
    ⌊(((2 : ℤ) + 2 * 0 - 1 * (3 - 1) - 1 : ℤ) : ℚ) / ((2 : ℤ) : ℚ)⌋ + 1 = 0 ∧
    (compute_output_shape small_input_geometry)[0]? ≠ some
      (⌊((small_input_geometry.input_shape 1 + 2 * small_input_geometry.pad_data 0
          - small_input_geometry.dilation_data 0 * (small_input_geometry.kernel_shape_data 0 - 1)
          - 1 : ℤ) : ℚ) / (small_input_geometry.stride_data 0 : ℚ)⌋ + 1) := by
  have hf : ⌊(((2 : ℤ) + 2 * 0 - 1 * (3 - 1) - 1 : ℤ) : ℚ) / ((2 : ℤ) : ℚ)⌋ + 1 = 0 := by
    norm_num [Int.floor_eq_iff]
  have hc : compute_output_shape small_input_geometry = [1] := by decide
  refine ⟨by decide, by decide, by decide, by decide, hc, hf, ?_⟩
  rw [hc]
  simp only [small_input_geometry]
  rw [hf]
  simp

/-- C11: after `get_quantization_paramter` the member `is_runtime_` is true whenever the
configured `range_low` equals the configured `range_high`, whatever the configured flag, and
is the configured flag otherwise; the range members are the configured ones.  With
`range_low = range_high = 1/2` and the flag configured false, `is_runtime_` is true. -/
theorem get_quantization_paramter_is_runtime (L : QuanConvolutionLayer) :
    (L.layer_param_.range_low = L.layer_param_.range_high →
      (get_quantization_paramter L).is_runtime_ = true) ∧
    (L.layer_param_.range_low ≠ L.layer_param_.range_high →
      (get_quantization_paramter L).is_runtime_ = L.layer_param_.is_runtime) ∧
    (get_quantization_paramter L).range_low_ = L.layer_param_.range_low ∧
    (get_quantization_paramter L).range_high_ = L.layer_param_.range_high ∧
    (degenerate_range_layer.layer_param_.is_runtime = false ∧
      (get_quantization_paramter degenerate_range_layer).is_runtime_ = true) := by
  refine ⟨fun h => ?_, fun h => ?_, rfl, rfl, rfl, ?_⟩
  · simp [get_quantization_paramter, h]
  · simp [get_quantization_paramter, h]
  · simp [get_quantization_paramter, degenerate_range_layer]

/-- C11 at the configuration `range_low = range_high = 1/2`, flag false (forced to true), and
at the configuration of `example_layer`, range `(-2, 2)`, flag false (kept). -/
theorem get_quantization_paramter_is_runtime_witness :
    (get_quantization_paramter degenerate_range_layer).is_runtime_ = true ∧
    (get_quantization_paramter example_layer).is_runtime_
      = example_layer.layer_param_.is_runtime :=
  ⟨(get_quantization_paramter_is_runtime degenerate_range_layer).1
      (by simp [degenerate_range_layer]),
    (get_quantization_paramter_is_runtime example_layer).2.1
      (by norm_num [example_layer])⟩

/-- C12: `Weight_Quantization` ends in `LOG(FATAL)` exactly when the round strategy or the
round method matches no `case` label; for every recognised strategy and method it completes
and writes a value. -/
theorem Weight_Quantization_fatal_iff (L : QuanConvolutionLayer) (w : Dtype) :
    ((∃ msg, Weight_Quantization L w = Except.error msg) ↔
      (L.round_strategy_ = RoundStrategy.UNKNOWN ∨ L.round_method_ = RoundMethod.UNKNOWN)) ∧
    ((∃ q, Weight_Quantization L w = Except.ok q) ↔
      (L.round_strategy_ ≠ RoundStrategy.UNKNOWN ∧ L.round_method_ ≠ RoundMethod.UNKNOWN)) := by
  unfold Weight_Quantization scaling_factor
  cases hs : L.round_strategy_ <;> cases hm : L.round_method_ <;> simp [round_by_method]

/-- C13: for any two recognised round methods `m1`, `m2`, `Weight_Quantization` writes the
same value on the same layer and weight: the value of lines 79-82, which with a finite
non-zero scaling factor `s` and a finite weight `w` is
`clamp(floor(w * s), min_value, max_value) / s`.  The rounding of the `switch` on the method
is discarded. -/
theorem Weight_Quantization_method_irrelevant (L : QuanConvolutionLayer) (w : Dtype)
    (m1 m2 : RoundMethod) (h1 : m1 ≠ RoundMethod.UNKNOWN) (h2 : m2 ≠ RoundMethod.UNKNOWN) :
    Weight_Quantization { L with round_method_ := m1 } w
      = Weight_Quantization { L with round_method_ := m2 } w ∧
    (∀ sf : Dtype, scaling_factor L = Except.ok sf →
      Weight_Quantization { L with round_method_ := m1 } w
        = Except.ok (clip_rescale w sf (clip_interval L).1 (clip_interval L).2)) ∧
    (∀ s v : ℚ, s ≠ 0 → w = fin v → scaling_factor L = Except.ok (fin s) →
      Weight_Quantization { L with round_method_ := m1 } w
        = Except.ok (fin (min (max (⌊v * s⌋ : ℚ) (clip_interval L).1) (clip_interval L).2 / s))) := by
  have key : ∀ m : RoundMethod, m ≠ RoundMethod.UNKNOWN → ∀ sf : Dtype,
      scaling_factor L = Except.ok sf →
      Weight_Quantization { L with round_method_ := m } w
        = Except.ok (clip_rescale w sf (clip_interval L).1 (clip_interval L).2) :=
    fun m hm sf hsf => Weight_Quantization_eq { L with round_method_ := m } w sf hsf hm
  refine ⟨?_, key m1 h1, fun s v hs hv hsf => ?_⟩
  · cases hsf : scaling_factor L with
    | error e =>
      have e1 : ∀ m, scaling_factor { L with round_method_ := m } = Except.error e :=
        fun _ => hsf
      simp only [Weight_Quantization, e1]
    | ok sf => rw [key m1 h1 sf hsf, key m2 h2 sf hsf]
  · rw [key m1 h1 _ hsf, hv, clip_rescale_fin v s _ _ hs]

/-- C13 at `bit_width = 8`, range `(-2, 2)`, NEUTRAL, weight `85/128`, methods CEIL and
ROUND: both write `floor(42.5) / 64 = 21/32`. -/
theorem Weight_Quantization_method_irrelevant_witness :
    Weight_Quantization { example_layer with round_method_ := RoundMethod.CEIL } (fin (85 / 128))
      = Weight_Quantization { example_layer with round_method_ := RoundMethod.ROUND }
          (fin (85 / 128)) ∧
    Weight_Quantization { example_layer with round_method_ := RoundMethod.CEIL } (fin (85 / 128))
      = Except.ok (fin (min (max (⌊(85 / 128 : ℚ) * 64⌋ : ℚ) (clip_interval example_layer).1)
          (clip_interval example_layer).2 / 64)) :=
  ⟨(Weight_Quantization_method_irrelevant example_layer (fin (85 / 128)) RoundMethod.CEIL
      RoundMethod.ROUND (by simp) (by simp)).1,
    (Weight_Quantization_method_irrelevant example_layer (fin (85 / 128)) RoundMethod.CEIL
      RoundMethod.ROUND (by simp) (by simp)).2.2 64 (85 / 128) (by norm_num) rfl
      example_scaling_factor⟩

/-- C14: with `bit_width = 8`, range `(-2, 2)`, NEUTRAL, FLOOR and the weight `13/10`,
`Weight_Quantization` has `min_value = -128`, `max_value = 127`,
`neg_scaling_factor = log2(128/2) = 6`, `pos_scaling_factor = log2(127/2)`, which is the
smaller and rounds to 6, `scaling_factor = 2^6 = 64`, and writes
`floor(83.2) / 64 = 83/64`. -/
theorem Weight_Quantization_scenario :
    clip_interval example_layer = ((-128 : ℚ), (127 : ℚ)) ∧
    neg_scaling_factor example_layer = log2 (128 / 2) ∧
    Real.logb 2 (((128 / 2 : ℚ)) : ℝ) = 6 ∧
    pos_scaling_factor example_layer = log2 (127 / 2) ∧
    LogVal.min (neg_scaling_factor example_layer) (pos_scaling_factor example_layer)
      = log2 (127 / 2) ∧
    LogVal.round (log2 (127 / 2)) = Exponent.int 6 ∧
    scaling_factor example_layer = Except.ok (fin 64) ∧
    ⌊(13 / 10 : ℚ) * 64⌋ = 83 ∧
    Weight_Quantization example_layer (fin (13 / 10)) = Except.ok (fin (83 / 64)) ∧
    (83 / 64 : ℚ) = 1.296875 := by
  have hci : clip_interval example_layer = ((-128 : ℚ), (127 : ℚ)) := by
    rw [example_clip_interval]
    norm_num
  have hn : neg_scaling_factor example_layer = log2 (128 / 2) := by
    rw [neg_scaling_factor, hci]
    norm_num [example_layer]
  have hp : pos_scaling_factor example_layer = log2 (127 / 2) := by
    rw [pos_scaling_factor, hci]
    norm_num [example_layer]
  have hlog : Real.logb 2 (((128 / 2 : ℚ)) : ℝ) = 6 := by
    have e : (((128 / 2 : ℚ)) : ℝ) = (2 : ℝ) ^ (6 : ℝ) := by
      push_cast
      norm_num
    rw [e, Real.logb_rpow (by norm_num) (by norm_num)]
  have h1 : Int.log 2 (16129 / 2 : ℚ) = 12 :=
    int_log_two_eq _ 12 (by norm_num) (by norm_num)
  refine ⟨hci, hn, hlog, hp, ?_, ?_, example_scaling_factor, ?_, example_quantize_a, ?_⟩
  · rw [hn, hp]
    norm_num [log2, LogVal.min, LogVal.lt]
  · norm_num [log2, LogVal.round, h1]
  · norm_num [Int.floor_eq_iff]
  · norm_num

/-- C16: with a finite positive scaling factor `s`, lines 79-82 are monotone in the weight:
for `w1 ≤ w2` the value for `w1` is at most the value for `w2`; and whenever the scheme that
`Weight_Quantization` selects has such an `s` and the method is recognised, the values it
writes for `w1` and `w2` are in that order. -/
theorem quantize_monotone (w1 w2 s m M : ℚ) (hs : 0 < s) (hmM : m ≤ M) (hw : w1 ≤ w2) :
    (∃ q1 q2 : ℚ, clip_rescale (fin w1) (fin s) m M = fin q1 ∧
      clip_rescale (fin w2) (fin s) m M = fin q2 ∧ q1 ≤ q2) ∧
    ∀ L : QuanConvolutionLayer, scaling_factor L = Except.ok (fin s) →
      clip_interval L = (m, M) → L.round_method_ ≠ RoundMethod.UNKNOWN →
      ∃ q1 q2 : ℚ, Weight_Quantization L (fin w1) = Except.ok (fin q1) ∧
        Weight_Quantization L (fin w2) = Except.ok (fin q2) ∧ q1 ≤ q2 := by
  have hf : (⌊w1 * s⌋ : ℚ) ≤ (⌊w2 * s⌋ : ℚ) := by
    exact_mod_cast Int.floor_le_floor (mul_le_mul_of_nonneg_right hw hs.le)
  have hq : min (max (⌊w1 * s⌋ : ℚ) m) M / s ≤ min (max (⌊w2 * s⌋ : ℚ) m) M / s :=
    div_le_div_of_nonneg_right (min_le_min (max_le_max hf (le_refl m)) (le_refl M)) hs.le
  refine ⟨⟨_, _, clip_rescale_fin w1 s m M hs.ne', clip_rescale_fin w2 s m M hs.ne', hq⟩,
    fun L hsf hci hm => ⟨_, _, ?_, ?_, hq⟩⟩
  · rw [Weight_Quantization_scheme L _ _ _ _ hsf hci hm, clip_rescale_fin w1 s m M hs.ne']
  · rw [Weight_Quantization_scheme L _ _ _ _ hsf hci hm, clip_rescale_fin w2 s m M hs.ne']

/-- C16 at `bit_width = 8`, range `(-2, 2)`, NEUTRAL (scheme `(64, -128, 127)`), weights
`-2 ≤ 13/10`. -/
theorem quantize_monotone_witness :
    (∃ q1 q2 : ℚ, clip_rescale (fin (-2)) (fin 64) (-128) 127 = fin q1 ∧
      clip_rescale (fin (13 / 10)) (fin 64) (-128) 127 = fin q2 ∧ q1 ≤ q2) ∧
    ∃ q1 q2 : ℚ, Weight_Quantization example_layer (fin (-2)) = Except.ok (fin q1) ∧
      Weight_Quantization example_layer (fin (13 / 10)) = Except.ok (fin q2) ∧ q1 ≤ q2 :=
  ⟨(quantize_monotone (-2) (13 / 10) 64 (-128) 127 (by norm_num) (by norm_num)
      (by norm_num)).1,
    (quantize_monotone (-2) (13 / 10) 64 (-128) 127 (by norm_num) (by norm_num)
      (by norm_num)).2 example_layer example_scaling_factor
      (by rw [example_clip_interval]; norm_num) (by simp [example_layer])⟩

/-- C17 (the code departs from it): with `Dtype = double`, `bit_width = 8` and the range
`(0, 1.5 * 2^-1016)` the exponent `log2(170 * 2^1016)` is finite, between 1023 and 1024;
CONSERVATIVE and NEUTRAL select `2^1023`, while for AGGRESSIVE `pow(2.0, 1024)` overflows and
the scaling factor is `+inf`, neither the CONSERVATIVE factor nor twice it. -/
theorem aggressive_overflows :
    LogVal.min (neg_scaling_factor tiny_range_layer) (pos_scaling_factor tiny_range_layer)
      = LogVal.log2Of (170 * 2 ^ 1016) ∧
    scaling_factor { tiny_range_layer with round_strategy_ := RoundStrategy.CONSERVATIVE }
      = Except.ok (fin (2 ^ 1023)) ∧
    scaling_factor { tiny_range_layer with round_strategy_ := RoundStrategy.NEUTRAL }
      = Except.ok (fin (2 ^ 1023)) ∧
    scaling_factor { tiny_range_layer with round_strategy_ := RoundStrategy.AGGRESSIVE }
      = Except.ok Dtype.posInf := by
  have hci : clip_interval tiny_range_layer = (0, 255) := by
    rw [clip_interval_exact _ (by simp [tiny_range_layer, example_layer])
      (by simp [tiny_range_layer, example_layer, DtypeKind.prec])]
    norm_num [tiny_range_layer, example_layer]
  have hn : neg_scaling_factor tiny_range_layer = LogVal.posInf := by
    simp [neg_scaling_factor, tiny_range_layer, example_layer]
  have hx : (255 : ℚ) / (3 / 2 * 2 ^ (-1016 : ℤ)) = 170 * 2 ^ 1016 := by
    rw [zpow_neg]
    field_simp
    norm_num
  have hp : pos_scaling_factor tiny_range_layer = LogVal.log2Of (170 * 2 ^ 1016) := by
    have hpos : (0 : ℚ) < 3 / 2 * 2 ^ (-1016 : ℤ) := by positivity
    have hpos2 : (0 : ℚ) < 170 * 2 ^ 1016 := by positivity
    rw [pos_scaling_factor, hci]
    simp only [tiny_range_layer, example_layer, hpos, if_true, hx, log2, hpos2]
  have hmin : LogVal.min (neg_scaling_factor tiny_range_layer)
      (pos_scaling_factor tiny_range_layer) = LogVal.log2Of (170 * 2 ^ 1016) := by
    rw [hn, hp]
    simp [LogVal.min, LogVal.lt]
  have hfloor : Int.log 2 ((170 : ℚ) * 2 ^ 1016) = 1023 :=
    int_log_two_eq _ 1023 (by norm_num) (by norm_num)
  have hceil : Int.clog 2 ((170 : ℚ) * 2 ^ 1016) = 1024 :=
    int_clog_two_eq _ 1024 (by norm_num) (by norm_num)
  have hround : Int.log 2 (2 * ((170 : ℚ) * 2 ^ 1016) * (170 * 2 ^ 1016)) = 2047 :=
    int_log_two_eq _ 2047 (by norm_num) (by norm_num)
  have e1 : ∀ s, neg_scaling_factor { tiny_range_layer with round_strategy_ := s }
      = neg_scaling_factor tiny_range_layer := fun _ => rfl
  have e2 : ∀ s, pos_scaling_factor { tiny_range_layer with round_strategy_ := s }
      = pos_scaling_factor tiny_range_layer := fun _ => rfl
  refine ⟨hmin, ?_, ?_, ?_⟩
  · simp only [scaling_factor, e1, e2, hmin, LogVal.floor, hfloor, pow2]
    norm_num [tiny_range_layer, example_layer, DtypeKind.emax, DtypeKind.emin]
  · simp only [scaling_factor, e1, e2, hmin, LogVal.round, hround, pow2]
    norm_num [tiny_range_layer, example_layer, DtypeKind.emax, DtypeKind.emin]
  · simp only [scaling_factor, e1, e2, hmin, LogVal.ceil, hceil, pow2]
    norm_num [tiny_range_layer, example_layer, DtypeKind.emax, DtypeKind.emin]

end caffe
